import Mathlib

/-!
Verification development for the granola-to-markdown synchronizer
(src/sync.py).  The definitions below are a shallow embedding of the
pure decision core of the program: the slugifier, the two-pass filename
assignment, the incremental sync loop (document reconciliation,
transcript export, orphan cleanup), the transcript formatter, the
Tiptap-to-markdown text renderer and the title extraction.  Filesystem
interaction is modelled by the set of file names present in the output
directory; `os.path.exists`/`os.remove`/`open(..,"w")` become membership
tests and list updates, and the actions the program performs are
recorded in an explicit action list.
-/

namespace Granola

/-- Python `str.strip()` on a list of characters: drop whitespace from
both ends. -/
def pyStripChars (l : List Char) : List Char :=
  ((l.dropWhile Char.isWhitespace).reverse.dropWhile Char.isWhitespace).reverse

/-- Python `str.strip()` (src/sync.py uses `.strip()` on strings). -/
def pyStrip (s : String) : String := String.mk (pyStripChars s.data)

/-- Models `re.sub` with a pattern of the form `X+` and a one-character
replacement `r`: every maximal run of characters satisfying `p` is
replaced by the single character `r`.  The Boolean argument records
whether the previous character belonged to a run. -/
def collapseRuns (p : Char → Bool) (r : Char) : List Char → Bool → List Char
  | [], _ => []
  | c :: rest, inRun =>
    if p c then
      if inRun then collapseRuns p r rest true
      else r :: collapseRuns p r rest true
    else c :: collapseRuns p r rest false

/-- Python `str.strip("-")`. -/
def stripHyphens (l : List Char) : List Char :=
  ((l.dropWhile (fun c => c == '-')).reverse.dropWhile (fun c => c == '-')).reverse

/-- Python's `\w` character class as used by slugify: alphanumeric or
underscore (ASCII reading of the word-character class). -/
def wordChar (c : Char) : Bool := c.isAlphanum || c == '_'

/-- `slugify` from src/sync.py lines 121-127:
`text.lower().strip()`, then `re.sub(r"[^\w\s-]", "", ...)`, then
`re.sub(r"[\s_]+", "-", ...)`, then `re.sub(r"-+", "-", ...)`, then
`.strip("-")[:80]`. -/
def slugify (text : String) : String :=
  let t1 := pyStripChars (text.data.map Char.toLower)
  let t2 := t1.filter (fun c => wordChar c || c.isWhitespace || c == '-')
  let t3 := collapseRuns (fun c => c.isWhitespace || c == '_') '-' t2 false
  let t4 := collapseRuns (fun c => c == '-') '-' t3 false
  String.mk ((stripHyphens t4).take 80)

/-- `slugify(data["title"]) or "untitled"`: Python `or` falls through to
the default exactly when the slug is the empty string. -/
def slugOrUntitled (title : String) : String :=
  let s := slugify title
  if s = "" then "untitled" else s

/-- One extracted meeting record (`all_data` values), restricted to the
fields the sync loop reads: `id`, `title`, `date`, `updated_at`
(src/sync.py lines 210-221). -/
structure Doc where
  id : String
  title : String
  date : String
  updated_at : String
deriving DecidableEq

/-- `f"{data['date']}_{slug}"` (src/sync.py line 392). -/
def baseName (d : Doc) : String := d.date ++ "_" ++ slugOrUntitled d.title

/-- The unsuffixed candidate filename `f"{base}.md"` (line 393). -/
def plainName (d : Doc) : String := baseName d ++ ".md"

/-- The id-suffixed filename `f"{base}_{doc_id[:8]}.md"` (lines 396, 407). -/
def suffixedName (d : Doc) : String := baseName d ++ "_" ++ d.id.take 8 ++ ".md"

/-- Number of records of the run computing a given unsuffixed filename. -/
def countBase (docs : List Doc) (f : String) : Nat :=
  (docs.filter (fun d => plainName d == f)).length

/-- Pointwise update of a Python-dict-as-function. -/
def updateFn {α : Type} (m : String → Option α) (k : String) (v : Option α) :
    String → Option α :=
  fun s => if s = k then v else m s

/-- Accumulator of the first filename-assignment pass:
`filename_counts` and `filenames` (src/sync.py lines 388-389). -/
structure AssignSt where
  counts : String → Option Nat
  filenames : String → Option String

/-- One iteration of the first assignment pass (src/sync.py lines
390-399): the first record with a given base keeps the unsuffixed name
and registers a count of 1; later records with the same base bump the
count and receive the id-suffixed name. -/
def step1 (st : AssignSt) (d : Doc) : AssignSt :=
  match st.counts (plainName d) with
  | some n =>
      ⟨updateFn st.counts (plainName d) (some (n + 1)),
       updateFn st.filenames d.id (some (suffixedName d))⟩
  | none =>
      ⟨updateFn st.counts (plainName d) (some 1),
       updateFn st.filenames d.id (some (plainName d))⟩

def pass1 (docs : List Doc) : AssignSt :=
  docs.foldl step1 ⟨fun _ => none, fun _ => none⟩

/-- One iteration of the second assignment pass (src/sync.py lines
402-407): a record that still holds an unsuffixed name shared by more
than one record is switched to the id-suffixed name. -/
def step2 (counts : String → Option Nat) (m : String → Option String) (d : Doc) :
    String → Option String :=
  if 1 < (counts (plainName d)).getD 0 ∧ m d.id = some (plainName d) then
    updateFn m d.id (some (suffixedName d))
  else m

/-- The complete filename assignment (both passes, src/sync.py lines
387-407), as a map from document id to assigned filename. -/
def assign (docs : List Doc) : String → Option String :=
  let st := pass1 docs
  docs.foldl (step2 st.counts) st.filenames

/-- One persisted sync-state entry
`{updated_at, filename, transcript_saved?, transcript_filename?}`.
Absent dictionary keys are `none` / `false`. -/
structure StateEntry where
  updated_at : Option String
  filename : Option String
  transcript_saved : Bool
  transcript_filename : Option String
deriving DecidableEq

def emptyEntry : StateEntry := ⟨none, none, false, none⟩

/-- The persisted state: an insertion-ordered Python dict keyed by
document id. -/
abbrev SyncState := List (String × StateEntry)

def lookupEntry : SyncState → String → Option StateEntry
  | [], _ => none
  | (k, v) :: rest, key => if k = key then some v else lookupEntry rest key

/-- Python dict assignment `m[k] = v`: replace in place if the key is
present (keeping its position), append otherwise. -/
def setKey : SyncState → String → StateEntry → SyncState
  | [], k, v => [(k, v)]
  | (k0, v0) :: rest, k, v =>
    if k0 = k then (k, v) :: rest else (k0, v0) :: setKey rest k v

/-- `os.path.exists(os.path.join(output_dir, name))`.  For `name = ""`
the joined path is the output directory itself, which exists
(`os.makedirs(output_dir, exist_ok=True)` ran at src/sync.py line 374),
so the check is true. -/
abbrev pathExists (fs : List String) (name : String) : Prop :=
  name = "" ∨ name ∈ fs

/-- Writing a file adds its name to the directory listing. -/
def addFile (fs : List String) (name : String) : List String :=
  if name ∈ fs then fs else fs ++ [name]

/-- `os.remove` drops the name from the directory listing. -/
def removeFile (fs : List String) (name : String) : List String :=
  fs.filter (fun f => f != name)

/-- A filesystem action performed by a run, tagged with the document id
(or state key) the loop was processing when it performed it. -/
inductive Action where
  | write (id : String) (filename : String)
  | writeTranscript (id : String) (filename : String)
  | delete (id : String) (filename : String)
deriving DecidableEq

/-- The mutable locals of the sync loop: the counters, the state being
built (`new_sync_state`), the directory contents, and the actions
performed so far. -/
structure RunSt where
  created : Nat
  updated : Nat
  skipped : Nat
  removed : Nat
  transcripts_saved : Nat
  new_state : SyncState
  fs : List String
  actions : List Action
deriving DecidableEq

/-- The rename-cleanup part of the per-document loop (src/sync.py lines
426-434): when a prior filename exists (Python truthiness: non-`None`
and non-empty), differs from the newly assigned one and its path
exists, remove it (log only in dry-run mode). -/
def renameCleanup (dry_run : Bool) (docId filename : String) (prev : StateEntry)
    (st : RunSt) : RunSt :=
  match prev.filename with
  | some old =>
    if old ≠ "" ∧ old ≠ filename then
      if pathExists st.fs old then
        if dry_run then st
        else { st with fs := removeFile st.fs old,
                       actions := st.actions ++ [Action.delete docId old] }
      else st
    else st
  | none => st

/-- The write part of the per-document loop (src/sync.py lines 437-451):
in dry-run mode only a log line is produced and the counters are left
untouched; otherwise the file is written and `created`/`updated` is
bumped according to whether a prior entry existed. -/
def writeDocFile (dry_run : Bool) (prevPresent : Bool) (docId filename : String)
    (st : RunSt) : RunSt :=
  if dry_run then st
  else
    { st with fs := addFile st.fs filename,
              actions := st.actions ++ [Action.write docId filename],
              updated := if prevPresent then st.updated + 1 else st.updated,
              created := if prevPresent then st.created else st.created + 1 }

/-- One iteration of the per-document loop (src/sync.py lines 415-456).
`ss` is the (possibly force-emptied) prior state, `filenames` the
assignment of the run.  Skip path: not force and the prior version
token equals the current one (the prior entry is copied forward).
Otherwise: rename cleanup, then the write, then the fresh state entry
`{updated_at, filename}` (which drops any transcript fields the prior
entry had). -/
def docStep (force dry_run : Bool) (ss : SyncState) (filenames : String → Option String)
    (st : RunSt) (data : Doc) : RunSt :=
  let filename := (filenames data.id).getD ""
  let prevOpt := lookupEntry ss data.id
  let prev := prevOpt.getD emptyEntry
  if force = false ∧ prev.updated_at = some data.updated_at then
    { st with new_state := setKey st.new_state data.id prev, skipped := st.skipped + 1 }
  else
    let st2 := writeDocFile dry_run prevOpt.isSome data.id filename
      (renameCleanup dry_run data.id filename prev st)
    let fresh : StateEntry := ⟨some data.updated_at, some filename, false, none⟩
    { st2 with new_state := setKey st2.new_state data.id fresh }

/-- One transcript utterance `{source, text, start_timestamp}`; absent
fields are the empty string. -/
structure Utt where
  source : String
  text : String
  start_timestamp : String
deriving DecidableEq

/-- Accumulator of `format_transcript`: the output lines and the
current-speaker grouping state. -/
structure TrSt where
  lines : List String
  current_speaker : Option String
deriving DecidableEq

/-- One iteration of the utterance loop in `format_transcript`
(src/sync.py lines 259-274).  `parseTime` abstracts the external
`parse_datetime` + `strftime("%H:%M:%S")` pair: it returns the rendered
clock string when the timestamp parses. -/
def utteranceStep (parseTime : String → Option String) (st : TrSt) (utt : Utt) : TrSt :=
  let speaker := if utt.source = "microphone" then "You" else "Other"
  let text := pyStrip utt.text
  if text = "" then st
  else
    let time_str :=
      if utt.start_timestamp ≠ "" then
        match parseTime utt.start_timestamp with
        | some s => "[" ++ s ++ "] "
        | none => ""
      else ""
    if some speaker ≠ st.current_speaker then
      { lines := st.lines ++ ["\n**" ++ speaker ++ ":** " ++ time_str ++ text],
        current_speaker := some speaker }
    else { st with lines := st.lines ++ [time_str ++ text] }

/-- `format_transcript` (src/sync.py lines 255-275). -/
def format_transcript (parseTime : String → Option String) (utterances : List Utt) : String :=
  pyStrip (String.intercalate "\n" (utterances.foldl (utteranceStep parseTime) ⟨[], none⟩).lines)

/-- The transcript-file write (src/sync.py lines 473-486): in dry-run
mode only a log line; otherwise the file is written; in both modes the
`transcripts_saved` counter is bumped. -/
def saveTranscriptFile (dry_run : Bool) (docId transcript_filename : String)
    (st : RunSt) : RunSt :=
  if dry_run then { st with transcripts_saved := st.transcripts_saved + 1 }
  else
    { st with fs := addFile st.fs transcript_filename,
              actions := st.actions ++ [Action.writeTranscript docId transcript_filename],
              transcripts_saved := st.transcripts_saved + 1 }

/-- One iteration of the transcript-export loop (src/sync.py lines
460-496): skip ids with no utterances or no current record; look the id
up in `new_sync_state` first and fall back to the prior state; skip if
that entry already has `transcript_saved`; otherwise write the
transcript file, bump the counter and mark the state entry (updating it
in place when present, else creating
`{updated_at, filename, transcript_saved, transcript_filename}`). -/
def exportStep (dry_run : Bool) (documents : List Doc) (ss : SyncState)
    (filenames : String → Option String) (st : RunSt) (pair : String × List Utt) : RunSt :=
  if pair.2 = [] then st
  else
    match documents.find? (fun d => d.id == pair.1) with
    | none => st
    | some data =>
      let prev :=
        match lookupEntry st.new_state pair.1 with
        | some e => e
        | none => (lookupEntry ss pair.1).getD emptyEntry
      if prev.transcript_saved then st
      else
        let transcript_filename :=
          data.date ++ "_" ++ slugOrUntitled data.title ++ "_transcript.md"
        let st2 := saveTranscriptFile dry_run pair.1 transcript_filename st
        match lookupEntry st2.new_state pair.1 with
        | some e =>
          let e2 := { e with transcript_saved := true,
                             transcript_filename := some transcript_filename }
          { st2 with new_state := setKey st2.new_state pair.1 e2 }
        | none =>
          let e2 : StateEntry := ⟨some data.updated_at, some ((filenames pair.1).getD ""),
            true, some transcript_filename⟩
          { st2 with new_state := setKey st2.new_state pair.1 e2 }

/-- One iteration of the orphan-cleanup loop (src/sync.py lines
501-516), over the (possibly force-emptied) prior state: for an id no
longer among the current records, remove its recorded file when the
path exists (for a missing `filename` key the recorded name is `""`,
whose joined path is the existing output directory), and retain a
tombstone entry when a transcript was captured. -/
def removeOrphanFile (dry_run : Bool) (stateKey old : String) (st : RunSt) : RunSt :=
  if pathExists st.fs old then
    if dry_run then { st with removed := st.removed + 1 }
    else { st with fs := removeFile st.fs old,
                   actions := st.actions ++ [Action.delete stateKey old],
                   removed := st.removed + 1 }
  else st

def orphanStep (dry_run : Bool) (documents : List Doc) (st : RunSt)
    (pair : String × StateEntry) : RunSt :=
  if (documents.find? (fun d => d.id == pair.1)).isSome then st
  else
    let st1 := removeOrphanFile dry_run pair.1 (pair.2.filename.getD "") st
    if pair.2.transcript_saved then
      let tomb : StateEntry := ⟨none, none, true, pair.2.transcript_filename⟩
      { st1 with new_state := setKey st1.new_state pair.1 tomb }
    else st1

/-- The outcome of a run: the performed actions, the state handed to
`save_sync_state` (`persisted = none` in dry-run mode, where the state
file is not written), the resulting directory contents and the summary
counters. -/
structure SyncResult where
  actions : List Action
  new_state : SyncState
  persisted : Option SyncState
  fs : List String
  created : Nat
  updated : Nat
  skipped : Nat
  removed : Nat
  transcripts_saved : Nat
deriving DecidableEq

/-- The sync run (src/sync.py lines 374-528) over already-extracted
records: prior state is loaded unless `force` is set (line 375:
`load_sync_state(output_dir) if not force else {}`), filenames are
assigned, then the document loop, the transcript-export loop and the
orphan-cleanup loop run in order, and the state is persisted unless in
dry-run mode. -/
def sync (force dry_run : Bool) (documents : List Doc)
    (transcripts : List (String × List Utt))
    (sync_state0 : SyncState) (fs0 : List String) : SyncResult :=
  let ss := if force then [] else sync_state0
  let filenames := assign documents
  let st0 : RunSt := ⟨0, 0, 0, 0, 0, [], fs0, []⟩
  let st1 := documents.foldl (docStep force dry_run ss filenames) st0
  let st2 := transcripts.foldl (exportStep dry_run documents ss filenames) st1
  let st3 := ss.foldl (orphanStep dry_run documents) st2
  { actions := st3.actions, new_state := st3.new_state,
    persisted := if dry_run then none else some st3.new_state,
    fs := st3.fs, created := st3.created, updated := st3.updated,
    skipped := st3.skipped, removed := st3.removed,
    transcripts_saved := st3.transcripts_saved }

/-- One formatting mark of a text run: `mark.get("type", "")` and, for
links, `mark.get("attrs", {}).get("href", "")` (absent fields are the
empty string). -/
structure Mark where
  mtype : String
  href : String
deriving DecidableEq

/-- A Tiptap node: `node.get("type", "")`, `node.get("text", "")`,
`node.get("marks", [])`, `attrs.get("level", 1)`,
`attrs.get("language", "")`, `node.get("content", [])`. -/
inductive Node where
  | mk (ntype : String) (text : String) (marks : List Mark)
       (level : Nat) (language : String) (content : List Node)

def Node.ntype : Node → String
  | .mk t _ _ _ _ _ => t

def Node.text : Node → String
  | .mk _ t _ _ _ _ => t

def Node.marks : Node → List Mark
  | .mk _ _ m _ _ _ => m

def Node.level : Node → Nat
  | .mk _ _ _ l _ _ => l

def Node.language : Node → String
  | .mk _ _ _ _ l _ => l

def Node.content : Node → List Node
  | .mk _ _ _ _ _ c => c

/-- The body of the mark loop of the `text` branch (src/sync.py lines
85-95): each mark wraps the accumulated text. -/
def applyMark (text : String) (mark : Mark) : String :=
  if mark.mtype = "bold" then "**" ++ text ++ "**"
  else if mark.mtype = "italic" then "*" ++ text ++ "*"
  else if mark.mtype = "link" then "[" ++ text ++ "](" ++ mark.href ++ ")"
  else if mark.mtype = "code" then "`" ++ text ++ "`"
  else text

/-- `'#' * level`. -/
def hashes (level : Nat) : String := String.mk (List.replicate level '#')

/-- `"  " * indent`. -/
def indentSpaces (indent : Nat) : String := String.mk (List.replicate indent ' ' ++ List.replicate indent ' ')

mutual

/-- `tiptap_to_markdown` (src/sync.py lines 28-114).  `orderedNum`
models the `ordered_num` keyword argument (`none` is Python's `None`;
because Python treats `0` as falsy, an ordinal of `0` also produces the
`-` marker in the list-item branch). -/
def tiptap_to_markdown (node : Node) (indent : Nat) (orderedNum : Option Nat) : String :=
  match node with
  | .mk ntype text marks level language content =>
    if ntype = "doc" then pyStrip (String.intercalate "\n" (renderLines content 0 none))
    else if ntype = "heading" then
      "\n" ++ hashes level ++ " " ++ renderConcatDefault content ++ "\n"
    else if ntype = "paragraph" then
      let t := renderConcatDefault content
      if 0 < indent then t else "\n" ++ t ++ "\n"
    else if ntype = "bulletList" then
      String.intercalate "\n" (renderLines content indent none)
    else if ntype = "orderedList" then
      String.intercalate "\n" (renderNumbered content indent 1)
    else if ntype = "listItem" then
      let inline := pyStrip (renderItemInline content indent)
      let marker :=
        match orderedNum with
        | some n => if n = 0 then "-" else toString n ++ "."
        | none => "-"
      indentSpaces indent ++ marker ++ " " ++ inline ++ renderItemSubLists content indent
    else if ntype = "text" then
      marks.foldl applyMark text
    else if ntype = "horizontalRule" then "\n---\n"
    else if ntype = "hardBreak" then "\n"
    else if ntype = "codeBlock" then
      "\n```" ++ language ++ "\n" ++ renderConcatDefault content ++ "\n```\n"
    else if ntype = "blockquote" then
      let t := renderConcatDefault content
      "\n" ++ String.intercalate "\n" (((pyStrip t).splitOn "\n").map (fun line => "> " ++ line)) ++ "\n"
    else renderConcatIndent content indent

/-- `"".join(tiptap_to_markdown(c) for c in content)` (children rendered
with the default arguments). -/
def renderConcatDefault : List Node → String
  | [] => ""
  | c :: cs => tiptap_to_markdown c 0 none ++ renderConcatDefault cs

/-- `"".join(tiptap_to_markdown(c, indent) for c in content)` (the
unknown-node fallback, src/sync.py line 114). -/
def renderConcatIndent : List Node → Nat → String
  | [], _ => ""
  | c :: cs, indent => tiptap_to_markdown c indent none ++ renderConcatIndent cs indent

/-- The per-item renderings joined by the callers of the list branches. -/
def renderLines : List Node → Nat → Option Nat → List String
  | [], _, _ => []
  | c :: cs, indent, onum => tiptap_to_markdown c indent onum :: renderLines cs indent onum

/-- `enumerate(content, 1)` of the ordered-list branch. -/
def renderNumbered : List Node → Nat → Nat → List String
  | [], _, _ => []
  | c :: cs, indent, i => tiptap_to_markdown c indent (some i) :: renderNumbered cs indent (i + 1)

/-- The inline part of the list-item branch: concatenation of the
renderings of the children that are not nested lists, in order
(src/sync.py lines 64-74). -/
def renderItemInline : List Node → Nat → String
  | [], _ => ""
  | c :: cs, indent =>
    if c.ntype = "bulletList" ∨ c.ntype = "orderedList" then renderItemInline cs indent
    else tiptap_to_markdown c indent none ++ renderItemInline cs indent

/-- The nested-list part of the list-item branch: each nested list is
rendered at depth `indent + 1` and appended on a new line (src/sync.py
lines 77-78). -/
def renderItemSubLists : List Node → Nat → String
  | [], _ => ""
  | c :: cs, indent =>
    if c.ntype = "bulletList" ∨ c.ntype = "orderedList" then
      "\n" ++ tiptap_to_markdown c (indent + 1) none ++ renderItemSubLists cs indent
    else renderItemSubLists cs indent

end

/-- The raw-document fields consumed by the title extraction in
`extract_meeting_data`; `none` models an absent `title` key. -/
structure RawDoc where
  title : Option String

/-- `title = doc.get("title", "Untitled Meeting")` (src/sync.py line
157): Python `dict.get` substitutes the default only when the key is
absent, not when its value is the empty string. -/
def extract_title (doc : RawDoc) : String := doc.title.getD "Untitled Meeting"

/-- The name the two-pass assignment gives a record: suffixed exactly
when its unsuffixed name is shared. -/
def targetName (docs : List Doc) (d : Doc) : String :=
  if 1 < countBase docs (plainName d) then suffixedName d else plainName d

theorem countBase_append (l1 l2 : List Doc) (f : String) :
    countBase (l1 ++ l2) f = countBase l1 f + countBase l2 f := by
  simp [countBase, List.filter_append]

theorem countBase_single (d : Doc) (f : String) :
    countBase [d] f = if plainName d = f then 1 else 0 := by
  by_cases h : plainName d = f <;>
    simp [countBase, List.filter_cons, List.filter_nil, h]

theorem countBase_pos (docs : List Doc) (d : Doc) (hd : d ∈ docs) :
    0 < countBase docs (plainName d) := by
  have : d ∈ docs.filter (fun x => plainName x == plainName d) :=
    List.mem_filter.2 ⟨hd, by simp⟩
  exact List.length_pos.2 (fun h => by simp [h] at this)

theorem string_length_append (a b : String) :
    (a ++ b).length = a.length + b.length := by
  cases a; cases b; simp [String.length, String.append]

theorem plainName_ne_suffixedName (d : Doc) : plainName d ≠ suffixedName d := by
  intro h
  have hlen := congrArg String.length h
  simp only [plainName, suffixedName, string_length_append] at hlen
  rw [show ".md".length = 3 from rfl, show "_".length = 1 from rfl] at hlen
  omega
theorem step1_inv_none (p : List Doc) (c : String → Option Nat) (m : String → Option String)
    (d0 : Doc) (hid : ∀ d ∈ p, d.id ≠ d0.id)
    (hc : ∀ f, c f = if countBase p f = 0 then none else some (countBase p f))
    (h1 : ∀ d ∈ p, m d.id = some (plainName d) ∨ m d.id = some (suffixedName d))
    (h2 : ∀ d ∈ p, countBase p (plainName d) = 1 → m d.id = some (plainName d))
    (hc' : c (plainName d0) = none) :
    (∀ f, (step1 ⟨c, m⟩ d0).counts f =
      if countBase (p ++ [d0]) f = 0 then none else some (countBase (p ++ [d0]) f)) ∧
    (∀ d ∈ p ++ [d0], (step1 ⟨c, m⟩ d0).filenames d.id = some (plainName d) ∨
      (step1 ⟨c, m⟩ d0).filenames d.id = some (suffixedName d)) ∧
    (∀ d ∈ p ++ [d0], countBase (p ++ [d0]) (plainName d) = 1 →
      (step1 ⟨c, m⟩ d0).filenames d.id = some (plainName d)) := by
  have hcount_cons : ∀ f, countBase (p ++ [d0]) f =
      countBase p f + (if plainName d0 = f then 1 else 0) := by
    intro f; rw [countBase_append, countBase_single]
  have hzero : countBase p (plainName d0) = 0 := by
    have := hc (plainName d0); rw [hc'] at this
    by_contra hne; simp [hne] at this
  have hs : step1 ⟨c, m⟩ d0 =
      ⟨updateFn c (plainName d0) (some 1), updateFn m d0.id (some (plainName d0))⟩ := by
    simp only [step1]
    rw [hc']
  rw [hs]
  refine ⟨?_, ?_, ?_⟩
  · intro f
    rw [hcount_cons]
    by_cases hf : plainName d0 = f
    · subst hf
      simp [updateFn, hzero]
    · have := hc f
      simp [updateFn, Ne.symm hf, hf, this]
  · intro d hd
    rcases List.mem_append.1 hd with hdp | hdd
    · have := h1 d hdp
      simpa [updateFn, hid d hdp] using this
    · have : d = d0 := by simpa using hdd
      subst this; simp [updateFn]
  · intro d hd hcnt
    rcases List.mem_append.1 hd with hdp | hdd
    · have hp1 : 0 < countBase p (plainName d) := countBase_pos p d hdp
      rw [hcount_cons] at hcnt
      have hcp : countBase p (plainName d) = 1 := by
        by_cases hb : plainName d0 = plainName d
        · simp [hb] at hcnt; omega
        · simpa [hb] using hcnt
      have hm := h2 d hdp hcp
      simpa [updateFn, hid d hdp] using hm
    · have : d = d0 := by simpa using hdd
      subst this; simp [updateFn]

theorem step1_inv_some (p : List Doc) (c : String → Option Nat) (m : String → Option String)
    (d0 : Doc) (n : Nat) (hid : ∀ d ∈ p, d.id ≠ d0.id)
    (hc : ∀ f, c f = if countBase p f = 0 then none else some (countBase p f))
    (h1 : ∀ d ∈ p, m d.id = some (plainName d) ∨ m d.id = some (suffixedName d))
    (h2 : ∀ d ∈ p, countBase p (plainName d) = 1 → m d.id = some (plainName d))
    (hc' : c (plainName d0) = some n) :
    (∀ f, (step1 ⟨c, m⟩ d0).counts f =
      if countBase (p ++ [d0]) f = 0 then none else some (countBase (p ++ [d0]) f)) ∧
    (∀ d ∈ p ++ [d0], (step1 ⟨c, m⟩ d0).filenames d.id = some (plainName d) ∨
      (step1 ⟨c, m⟩ d0).filenames d.id = some (suffixedName d)) ∧
    (∀ d ∈ p ++ [d0], countBase (p ++ [d0]) (plainName d) = 1 →
      (step1 ⟨c, m⟩ d0).filenames d.id = some (plainName d)) := by
  have hcount_cons : ∀ f, countBase (p ++ [d0]) f =
      countBase p f + (if plainName d0 = f then 1 else 0) := by
    intro f; rw [countBase_append, countBase_single]
  have hn : countBase p (plainName d0) = n ∧ countBase p (plainName d0) ≠ 0 := by
    have := hc (plainName d0); rw [hc'] at this
    by_cases hz : countBase p (plainName d0) = 0
    · simp [hz] at this
    · simp [hz] at this; exact ⟨this.symm, hz⟩
  have hs : step1 ⟨c, m⟩ d0 =
      ⟨updateFn c (plainName d0) (some (n + 1)), updateFn m d0.id (some (suffixedName d0))⟩ := by
    simp only [step1]
    rw [hc']
  rw [hs]
  refine ⟨?_, ?_, ?_⟩
  · intro f
    rw [hcount_cons]
    by_cases hf : plainName d0 = f
    · subst hf
      have hne : countBase p (plainName d0) + 1 ≠ 0 := by omega
      simp [updateFn, hn.1, hne]
    · have := hc f
      simp [updateFn, Ne.symm hf, hf, this]
  · intro d hd
    rcases List.mem_append.1 hd with hdp | hdd
    · have := h1 d hdp
      simpa [updateFn, hid d hdp] using this
    · have : d = d0 := by simpa using hdd
      subst this; simp [updateFn]
  · intro d hd hcnt
    rcases List.mem_append.1 hd with hdp | hdd
    · have hp1 : 0 < countBase p (plainName d) := countBase_pos p d hdp
      rw [hcount_cons] at hcnt
      have hcp : countBase p (plainName d) = 1 := by
        by_cases hb : plainName d0 = plainName d
        · simp [hb] at hcnt; omega
        · simpa [hb] using hcnt
      have hm := h2 d hdp hcp
      simpa [updateFn, hid d hdp] using hm
    · have hde : d = d0 := by simpa using hdd
      rw [hcount_cons, hde] at hcnt
      have hz : countBase p (plainName d0) = 0 := by simpa using hcnt
      exact absurd hz hn.2

theorem pass1_fold (l : List Doc) :
    ∀ (p : List Doc) (c : String → Option Nat) (m : String → Option String),
    ((p ++ l).map Doc.id).Nodup →
    (∀ f, c f = if countBase p f = 0 then none else some (countBase p f)) →
    (∀ d ∈ p, m d.id = some (plainName d) ∨ m d.id = some (suffixedName d)) →
    (∀ d ∈ p, countBase p (plainName d) = 1 → m d.id = some (plainName d)) →
    (∀ f, (l.foldl step1 ⟨c, m⟩).counts f =
      if countBase (p ++ l) f = 0 then none else some (countBase (p ++ l) f)) ∧
    (∀ d ∈ p ++ l, (l.foldl step1 ⟨c, m⟩).filenames d.id = some (plainName d) ∨
      (l.foldl step1 ⟨c, m⟩).filenames d.id = some (suffixedName d)) ∧
    (∀ d ∈ p ++ l, countBase (p ++ l) (plainName d) = 1 →
      (l.foldl step1 ⟨c, m⟩).filenames d.id = some (plainName d)) := by
  induction l with
  | nil => intro p c m hnd hc h1 h2; simpa using ⟨hc, h1, h2⟩
  | cons d0 rest ih =>
    intro p c m hnd hc h1 h2
    have hid : ∀ d ∈ p, d.id ≠ d0.id := by
      intro d hdp
      have hnd' := hnd
      rw [List.map_append, List.nodup_append] at hnd'
      intro he
      exact hnd'.2.2 (List.mem_map_of_mem Doc.id hdp) (by simp [he])
    have hinvs : (∀ f, (step1 ⟨c, m⟩ d0).counts f =
        if countBase (p ++ [d0]) f = 0 then none else some (countBase (p ++ [d0]) f)) ∧
      (∀ d ∈ p ++ [d0], (step1 ⟨c, m⟩ d0).filenames d.id = some (plainName d) ∨
        (step1 ⟨c, m⟩ d0).filenames d.id = some (suffixedName d)) ∧
      (∀ d ∈ p ++ [d0], countBase (p ++ [d0]) (plainName d) = 1 →
        (step1 ⟨c, m⟩ d0).filenames d.id = some (plainName d)) := by
      rcases hc' : c (plainName d0) with _ | n
      · exact step1_inv_none p c m d0 hid hc h1 h2 hc'
      · exact step1_inv_some p c m d0 n hid hc h1 h2 hc'
    obtain ⟨ic, i1, i2⟩ := hinvs
    have hnd2 : (((p ++ [d0]) ++ rest).map Doc.id).Nodup := by simpa using hnd
    have hres := ih (p ++ [d0]) (step1 ⟨c, m⟩ d0).counts (step1 ⟨c, m⟩ d0).filenames
      hnd2 ic i1 i2
    have hfold : List.foldl step1 ⟨c, m⟩ (d0 :: rest) =
        List.foldl step1 (step1 ⟨c, m⟩ d0) rest := rfl
    have hl : p ++ d0 :: rest = (p ++ [d0]) ++ rest := by simp
    rw [hfold, hl]
    simpa using hres




theorem pass1_spec (docs : List Doc) (hnd : (docs.map Doc.id).Nodup) :
    (∀ f, (pass1 docs).counts f =
      if countBase docs f = 0 then none else some (countBase docs f)) ∧
    (∀ d ∈ docs, (pass1 docs).filenames d.id = some (plainName d) ∨
      (pass1 docs).filenames d.id = some (suffixedName d)) ∧
    (∀ d ∈ docs, countBase docs (plainName d) = 1 →
      (pass1 docs).filenames d.id = some (plainName d)) := by
  have h := pass1_fold docs [] (fun _ => none) (fun _ => none)
    (by simpa using hnd) (by intro f; simp [countBase]) (by simp) (by simp)
  simpa [pass1] using h

theorem pass2_fold (docs : List Doc) (c : String → Option Nat)
    (hc : ∀ f, (c f).getD 0 = countBase docs f)
    (hnd : (docs.map Doc.id).Nodup) :
    ∀ (l q : List Doc) (m : String → Option String),
    docs = q ++ l →
    (∀ d ∈ q, m d.id = some (targetName docs d)) →
    (∀ d ∈ l, (m d.id = some (plainName d) ∨ m d.id = some (suffixedName d)) ∧
      (countBase docs (plainName d) = 1 → m d.id = some (plainName d))) →
    ∀ d ∈ docs, (l.foldl (step2 c) m) d.id = some (targetName docs d) := by
  intro l
  induction l with
  | nil =>
    intro q m hdocs hq _ d hd
    exact hq d (by rw [hdocs, List.append_nil] at hd; exact hd)
  | cons d0 rest ih =>
    intro q m hdocs hq hl
    have hd0docs : d0 ∈ docs := by rw [hdocs]; simp
    have hnd' : ((q ++ d0 :: rest).map Doc.id).Nodup := by rw [← hdocs]; exact hnd
    rw [List.map_append, List.nodup_append] at hnd'
    have hid_q : ∀ d ∈ q, d.id ≠ d0.id := by
      intro d hd he
      exact hnd'.2.2 (List.mem_map_of_mem Doc.id hd) (by simp [he])
    have hid_rest : ∀ d ∈ rest, d.id ≠ d0.id := by
      intro d hd he
      have hcons := hnd'.2.1
      rw [List.map_cons, List.nodup_cons] at hcons
      exact hcons.1 (he ▸ List.mem_map_of_mem Doc.id hd)
    have hcnt : (c (plainName d0)).getD 0 = countBase docs (plainName d0) := hc _
    have hA : (step2 c m d0) d0.id = some (targetName docs d0) := by
      by_cases h1 : 1 < countBase docs (plainName d0)
      · by_cases h2 : m d0.id = some (plainName d0)
        · have hcond : 1 < (c (plainName d0)).getD 0 ∧ m d0.id = some (plainName d0) :=
            ⟨by rw [hcnt]; exact h1, h2⟩
          simp only [step2]
          rw [if_pos hcond]
          simp [updateFn, targetName, h1]
        · have hsuf : m d0.id = some (suffixedName d0) := by
            rcases (hl d0 (by simp)).1 with h | h
            · exact absurd h h2
            · exact h
          have hcond : ¬ (1 < (c (plainName d0)).getD 0 ∧ m d0.id = some (plainName d0)) := by
            intro hco; exact h2 hco.2
          simp only [step2]
          rw [if_neg hcond, hsuf, targetName, if_pos h1]
      · have hone : countBase docs (plainName d0) = 1 := by
          have := countBase_pos docs d0 hd0docs
          omega
        have hplain : m d0.id = some (plainName d0) := (hl d0 (by simp)).2 hone
        have hcond : ¬ (1 < (c (plainName d0)).getD 0 ∧ m d0.id = some (plainName d0)) := by
          intro hco
          rw [hcnt] at hco
          exact h1 hco.1
        simp only [step2]
        rw [if_neg hcond, hplain, targetName, if_neg h1]
    have hBC : ∀ k, k ≠ d0.id → (step2 c m d0) k = m k := by
      intro k hk
      simp only [step2]
      by_cases hcond : 1 < (c (plainName d0)).getD 0 ∧ m d0.id = some (plainName d0)
      · rw [if_pos hcond]; simp [updateFn, hk]
      · rw [if_neg hcond]
    have hfold : List.foldl (step2 c) m (d0 :: rest) =
        List.foldl (step2 c) (step2 c m d0) rest := rfl
    rw [hfold]
    refine ih (q ++ [d0]) (step2 c m d0) (by rw [hdocs]; simp) ?_ ?_
    · intro d hd
      rcases List.mem_append.1 hd with hdq | hdd
      · rw [hBC d.id (hid_q d hdq)]
        exact hq d hdq
      · have : d = d0 := by simpa using hdd
        subst this
        exact hA
    · intro d hd
      rw [hBC d.id (hid_rest d hd)]
      exact hl d (by simp [hd])

theorem assign_spec (docs : List Doc) (hnd : (docs.map Doc.id).Nodup) :
    ∀ d ∈ docs, assign docs d.id = some (targetName docs d) := by
  obtain ⟨hc, h1, h2⟩ := pass1_spec docs hnd
  have hgetD : ∀ f, ((pass1 docs).counts f).getD 0 = countBase docs f := by
    intro f
    rw [hc f]
    by_cases hz : countBase docs f = 0 <;> simp [hz]
  intro d hd
  have h := pass2_fold docs (pass1 docs).counts hgetD hnd docs [] (pass1 docs).filenames
    rfl (by simp) (fun d hd => ⟨h1 d hd, h2 d hd⟩) d hd
  simpa [assign] using h

theorem string_data_append (a b : String) : (a ++ b).data = a.data ++ b.data := by
  cases a; cases b; rfl

theorem string_data_inj (a b : String) (h : a.data = b.data) : a = b := by
  cases a; cases b; exact congrArg String.mk h

theorem collapseRuns_not_mem_of_sep (p : Char → Bool) (r a : Char)
    (hp : p a = true) (hr : a ≠ r) : ∀ l b, a ∉ collapseRuns p r l b := by
  intro l
  induction l with
  | nil => intro b; simp [collapseRuns]
  | cons c rest ih =>
    intro b
    by_cases hc : p c
    · by_cases hb : b
      · simpa [collapseRuns, hc, hb] using ih true
      · simp only [collapseRuns, hc, hb, if_true, if_false]
        intro hmem
        rcases List.mem_cons.1 hmem with h | h
        · exact hr h
        · exact ih true h
    · simp only [collapseRuns, hc, if_false]
      intro hmem
      rcases List.mem_cons.1 hmem with h | h
      · rw [h] at hp; exact absurd hp (by simpa using hc)
      · exact ih false h

theorem collapseRuns_not_mem_of_not_mem (p : Char → Bool) (r a : Char)
    (hr : a ≠ r) : ∀ l b, a ∉ l → a ∉ collapseRuns p r l b := by
  intro l
  induction l with
  | nil => intro b _; simp [collapseRuns]
  | cons c rest ih =>
    intro b hl
    have hnc : a ≠ c := fun h => hl (by rw [h]; exact List.mem_cons_self c rest)
    have hnr : a ∉ rest := fun h => hl (List.mem_cons_of_mem c h)
    by_cases hc : p c
    · by_cases hb : b
      · simpa [collapseRuns, hc, hb] using ih true hnr
      · simp only [collapseRuns, hc, hb, if_true, if_false]
        intro hmem
        rcases List.mem_cons.1 hmem with h | h
        · exact hr h
        · exact ih true hnr h
    · simp only [collapseRuns, hc, if_false]
      intro hmem
      rcases List.mem_cons.1 hmem with h | h
      · exact hnc h
      · exact ih false hnr h

theorem stripHyphens_not_mem (a : Char) (l : List Char) (h : a ∉ l) :
    a ∉ stripHyphens l := by
  intro hmem
  unfold stripHyphens at hmem
  rw [List.mem_reverse] at hmem
  have h2 := (List.dropWhile_sublist (l := (l.dropWhile (fun c => c == '-')).reverse)
    (p := fun c => c == '-')).mem hmem
  rw [List.mem_reverse] at h2
  exact h ((List.dropWhile_sublist (l := l) (p := fun c => c == '-')).mem h2)

theorem slugify_no_underscore (t : String) : '_' ∉ (slugify t).data := by
  intro hmem
  simp only [slugify] at hmem
  have h3 : '_' ∉ collapseRuns (fun c => c.isWhitespace || c == '_') '-'
      ((pyStripChars (t.data.map Char.toLower)).filter
        (fun c => wordChar c || c.isWhitespace || c == '-')) false :=
    collapseRuns_not_mem_of_sep _ '-' '_' (by decide) (by decide) _ _
  have h4 : '_' ∉ collapseRuns (fun c => c == '-') '-'
      (collapseRuns (fun c => c.isWhitespace || c == '_') '-'
        ((pyStripChars (t.data.map Char.toLower)).filter
          (fun c => wordChar c || c.isWhitespace || c == '-')) false) false :=
    collapseRuns_not_mem_of_not_mem _ '-' '_' (by decide) _ _ h3
  have h5 := stripHyphens_not_mem '_' _ h4
  exact h5 ((List.take_sublist 80 _).mem hmem)

theorem slugOrUntitled_no_underscore (t : String) :
    '_' ∉ (slugOrUntitled t).data := by
  have hcase : slugOrUntitled t = "untitled" ∨ slugOrUntitled t = slugify t := by
    unfold slugOrUntitled
    by_cases h : slugify t = "" <;> simp [h]
  rcases hcase with h | h
  · rw [h]; decide
  · rw [h]; exact slugify_no_underscore t

theorem plainName_data (d : Doc) : (plainName d).data =
    d.date.data ++ '_' :: ((slugOrUntitled d.title).data ++ ".md".data) := by
  simp [plainName, baseName, string_data_append]

theorem suffixedName_data (d : Doc) : (suffixedName d).data =
    d.date.data ++ '_' :: ((slugOrUntitled d.title).data ++
      '_' :: ((d.id.take 8).data ++ ".md".data)) := by
  simp [suffixedName, baseName, string_data_append]

theorem underscore_count_plain (d : Doc) (hd : '_' ∉ d.date.data) :
    ((plainName d).data).count '_' = 1 := by
  rw [plainName_data]
  rw [List.count_append, List.count_cons, List.count_append]
  rw [List.count_eq_zero.2 hd, List.count_eq_zero.2 (slugOrUntitled_no_underscore d.title)]
  decide

theorem underscore_count_suffixed (d : Doc) (hd : '_' ∉ d.date.data) :
    2 ≤ ((suffixedName d).data).count '_' := by
  rw [suffixedName_data]
  rw [List.count_append, List.count_cons, List.count_append, List.count_cons,
    List.count_append]
  rw [List.count_eq_zero.2 hd, List.count_eq_zero.2 (slugOrUntitled_no_underscore d.title)]
  have hmd : List.count '_' ".md".data = 0 := by decide
  rw [hmd]
  simp

theorem split_at_sep (s1 : List Char) : ∀ (s2 r1 r2 : List Char),
    '_' ∉ s1 → '_' ∉ s2 → s1 ++ '_' :: r1 = s2 ++ '_' :: r2 → s1 = s2 ∧ r1 = r2 := by
  induction s1 with
  | nil =>
    intro s2 r1 r2 _ h2 he
    cases s2 with
    | nil => simpa using he
    | cons c s2t =>
      exfalso
      have hpair : '_' = c ∧ r1 = s2t ++ '_' :: r2 := by simpa using he
      exact h2 (by rw [hpair.1]; exact List.mem_cons_self c s2t)
  | cons c s1t ih =>
    intro s2 r1 r2 h1 h2 he
    cases s2 with
    | nil =>
      exfalso
      have hpair : c = '_' ∧ s1t ++ '_' :: r1 = r2 := by simpa using he
      exact h1 (by rw [← hpair.1]; exact List.mem_cons_self c s1t)
    | cons c2 s2t =>
      have hpair : c = c2 ∧ s1t ++ '_' :: r1 = s2t ++ '_' :: r2 := by simpa using he
      have h1' : '_' ∉ s1t := fun h => h1 (List.mem_cons_of_mem c h)
      have h2' : '_' ∉ s2t := fun h => h2 (List.mem_cons_of_mem c2 h)
      obtain ⟨hs, hr⟩ := ih s2t r1 r2 h1' h2' hpair.2
      exact ⟨by rw [hpair.1, hs], hr⟩

theorem two_le_length {α : Type} (l : List α) (a b : α)
    (ha : a ∈ l) (hb : b ∈ l) (hne : a ≠ b) : 2 ≤ l.length := by
  obtain ⟨s, t, rfl⟩ := List.append_of_mem ha
  rcases List.mem_append.1 hb with hbs | hbt
  · have h1 : 0 < s.length := List.length_pos.2 (List.ne_nil_of_mem hbs)
    simp only [List.length_append, List.length_cons]
    omega
  · rcases List.mem_cons.1 hbt with h | h
    · exact absurd h.symm hne
    · have h1 : 0 < t.length := List.length_pos.2 (List.ne_nil_of_mem h)
      simp only [List.length_append, List.length_cons]
      omega

theorem countBase_two (docs : List Doc) (d1 d2 : Doc)
    (h1 : d1 ∈ docs) (h2 : d2 ∈ docs) (hne : d1 ≠ d2)
    (hpl : plainName d1 = plainName d2) : 1 < countBase docs (plainName d1) := by
  have m1 : d1 ∈ docs.filter (fun d => plainName d == plainName d1) :=
    List.mem_filter.2 ⟨h1, by simp⟩
  have m2 : d2 ∈ docs.filter (fun d => plainName d == plainName d1) :=
    List.mem_filter.2 ⟨h2, by simp [hpl]⟩
  exact two_le_length _ d1 d2 m1 m2 hne


theorem suffixed_eq_suffixed (d1 d2 : Doc)
    (e1 : d1.date.length = 10) (e2 : d2.date.length = 10)
    (heq : suffixedName d1 = suffixedName d2) :
    d1.id.take 8 = d2.id.take 8 := by
  have hdata := congrArg String.data heq
  rw [suffixedName_data, suffixedName_data] at hdata
  have hlen : d1.date.data.length = d2.date.data.length := by
    have g1 : d1.date.data.length = d1.date.length := rfl
    have g2 : d2.date.data.length = d2.date.length := rfl
    rw [g1, g2, e1, e2]
  obtain ⟨_, htail⟩ := List.append_inj hdata hlen
  have htail' : (slugOrUntitled d1.title).data ++ '_' :: ((d1.id.take 8).data ++ ".md".data) =
      (slugOrUntitled d2.title).data ++ '_' :: ((d2.id.take 8).data ++ ".md".data) := by
    simpa using htail
  obtain ⟨_, hr⟩ := split_at_sep _ _ _ _
    (slugOrUntitled_no_underscore d1.title) (slugOrUntitled_no_underscore d2.title) htail'
  have hlen2 : (d1.id.take 8).data.length = (d2.id.take 8).data.length := by
    have hl := congrArg List.length hr
    simp only [List.length_append] at hl
    omega
  exact string_data_inj _ _ (List.append_inj hr hlen2).1


theorem nodup_of_map_comp {α β γ : Type} (f : α → β) (g : β → γ) (l : List α)
    (h : (l.map (fun a => g (f a))).Nodup) : (l.map f).Nodup := by
  induction l with
  | nil => simp
  | cons a t ih =>
    simp only [List.map_cons, List.nodup_cons] at h ⊢
    refine ⟨?_, ih h.2⟩
    intro hmem
    obtain ⟨x, hx, he⟩ := List.mem_map.1 hmem
    exact h.1 (List.mem_map.2 ⟨x, hx, by rw [he]⟩)

/-- C4 (amended): with pairwise-distinct 8-character id prefixes and
well-formed dates, the assignment is injective. -/
theorem C4_assign_injective_amended (docs : List Doc)
    (hpre : (docs.map (fun d => d.id.take 8)).Nodup)
    (hdate : ∀ d ∈ docs, d.date.length = 10 ∧ '_' ∉ d.date.data) :
    ∀ d1 ∈ docs, ∀ d2 ∈ docs,
      assign docs d1.id = assign docs d2.id → d1.id = d2.id := by
  have hids : (docs.map Doc.id).Nodup :=
    nodup_of_map_comp Doc.id (fun s => s.take 8) docs hpre
  have htake : ∀ d1 ∈ docs, ∀ d2 ∈ docs, d1.id.take 8 = d2.id.take 8 → d1 = d2 := by
    intro d1 h1 d2 h2 h
    exact List.inj_on_of_nodup_map hpre h1 h2 h
  intro d1 h1 d2 h2 heq
  rw [assign_spec docs hids d1 h1, assign_spec docs hids d2 h2] at heq
  have heq' := Option.some.inj heq
  simp only [targetName] at heq'
  by_cases hb1 : 1 < countBase docs (plainName d1)
  · by_cases hb2 : 1 < countBase docs (plainName d2)
    · rw [if_pos hb1, if_pos hb2] at heq'
      have := htake d1 h1 d2 h2 (suffixed_eq_suffixed d1 d2
        (hdate d1 h1).1 (hdate d2 h2).1 heq')
      rw [this]
    · rw [if_pos hb1, if_neg hb2] at heq'
      exfalso
      have hc1 := underscore_count_suffixed d1 (hdate d1 h1).2
      have hc2 := underscore_count_plain d2 (hdate d2 h2).2
      rw [heq'] at hc1
      omega
  · by_cases hb2 : 1 < countBase docs (plainName d2)
    · rw [if_neg hb1, if_pos hb2] at heq'
      exfalso
      have hc1 := underscore_count_plain d1 (hdate d1 h1).2
      have hc2 := underscore_count_suffixed d2 (hdate d2 h2).2
      rw [← heq'] at hc2
      omega
    · rw [if_neg hb1, if_neg hb2] at heq'
      by_cases hdd : d1 = d2
      · rw [hdd]
      · exact absurd (countBase_two docs d1 d2 h1 h2 hdd heq') hb1

theorem lookupEntry_setKey_self (m : SyncState) (k : String) (v : StateEntry) :
    lookupEntry (setKey m k v) k = some v := by
  induction m with
  | nil => simp [setKey, lookupEntry]
  | cons p rest ih =>
    rcases p with ⟨k0, v0⟩
    by_cases h : k0 = k
    · simp [setKey, h, lookupEntry]
    · simp [setKey, h, lookupEntry, ih]

theorem lookupEntry_setKey_ne (m : SyncState) (k : String) (v : StateEntry)
    (k' : String) (h : k' ≠ k) :
    lookupEntry (setKey m k v) k' = lookupEntry m k' := by
  induction m with
  | nil => simp [setKey, lookupEntry, Ne.symm h]
  | cons p rest ih =>
    rcases p with ⟨k0, v0⟩
    by_cases h0 : k0 = k
    · subst h0
      simp [setKey, lookupEntry, Ne.symm h]
    · by_cases h1 : k0 = k'
      · simp [setKey, h0, lookupEntry, h1, h]
      · simp [setKey, h0, lookupEntry, h1, h, ih]

theorem lookupEntry_mem (m : SyncState) (k : String) (v : StateEntry)
    (h : lookupEntry m k = some v) : (k, v) ∈ m := by
  induction m with
  | nil => simp [lookupEntry] at h
  | cons p rest ih =>
    rcases p with ⟨k0, v0⟩
    by_cases h0 : k0 = k
    · subst h0
      simp [lookupEntry] at h
      simp [h]
    · simp [lookupEntry, h0] at h
      exact List.mem_cons_of_mem _ (ih h)

theorem mem_addFile (fs : List String) (n f : String) (h : f ∈ fs) :
    f ∈ addFile fs n := by
  unfold addFile
  split
  · exact h
  · exact List.mem_append.2 (Or.inl h)

theorem mem_removeFile (fs : List String) (n f : String) (h : f ∈ fs) (hne : f ≠ n) :
    f ∈ removeFile fs n := by
  unfold removeFile
  simp [List.mem_filter, h, hne]

theorem renameCleanup_new_state (dry_run : Bool) (docId filename : String)
    (prev : StateEntry) (st : RunSt) :
    (renameCleanup dry_run docId filename prev st).new_state = st.new_state := by
  unfold renameCleanup
  split <;> try rfl
  split <;> try rfl
  split <;> try rfl
  split <;> rfl

theorem renameCleanup_skipped (dry_run : Bool) (docId filename : String)
    (prev : StateEntry) (st : RunSt) :
    (renameCleanup dry_run docId filename prev st).skipped = st.skipped := by
  unfold renameCleanup
  split <;> try rfl
  split <;> try rfl
  split <;> try rfl
  split <;> rfl

theorem renameCleanup_actions_sub (dry_run : Bool) (docId filename : String)
    (prev : StateEntry) (st : RunSt) (a : Action) (h : a ∈ st.actions) :
    a ∈ (renameCleanup dry_run docId filename prev st).actions := by
  unfold renameCleanup
  split
  · split
    · split
      · split
        · exact h
        · simp only [List.mem_append]
          exact Or.inl h
      · exact h
    · exact h
  · exact h

theorem renameCleanup_actions_shape (dry_run : Bool) (docId filename : String)
    (prev : StateEntry) (st : RunSt) (a : Action)
    (h : a ∈ (renameCleanup dry_run docId filename prev st).actions) :
    a ∈ st.actions ∨ ∃ old, prev.filename = some old ∧ a = Action.delete docId old := by
  unfold renameCleanup at h
  split at h
  · rename_i old heq
    split at h
    · split at h
      · split at h
        · exact Or.inl h
        · simp only [List.mem_append, List.mem_singleton] at h
          rcases h with h | h
          · exact Or.inl h
          · exact Or.inr ⟨old, heq, h⟩
      · exact Or.inl h
    · exact Or.inl h
  · exact Or.inl h

theorem renameCleanup_fs (dry_run : Bool) (docId filename : String)
    (prev : StateEntry) (st : RunSt) (f : String)
    (h : f ∈ st.fs) (hno : prev.filename ≠ some f) :
    f ∈ (renameCleanup dry_run docId filename prev st).fs := by
  unfold renameCleanup
  split
  · rename_i old heq
    have hne : f ≠ old := by
      intro he
      exact hno (by rw [heq, he])
    split
    · split
      · split
        · exact h
        · exact mem_removeFile st.fs old f h hne
      · exact h
    · exact h
  · exact h

theorem writeDocFile_new_state (dry_run prevPresent : Bool) (docId filename : String)
    (st : RunSt) :
    (writeDocFile dry_run prevPresent docId filename st).new_state = st.new_state := by
  unfold writeDocFile
  split <;> rfl

theorem writeDocFile_actions_sub (dry_run prevPresent : Bool) (docId filename : String)
    (st : RunSt) (a : Action) (h : a ∈ st.actions) :
    a ∈ (writeDocFile dry_run prevPresent docId filename st).actions := by
  unfold writeDocFile
  split
  · exact h
  · simp only [List.mem_append]
    exact Or.inl h

theorem writeDocFile_actions_shape (dry_run prevPresent : Bool) (docId filename : String)
    (st : RunSt) (a : Action)
    (h : a ∈ (writeDocFile dry_run prevPresent docId filename st).actions) :
    a ∈ st.actions ∨ a = Action.write docId filename := by
  unfold writeDocFile at h
  split at h
  · exact Or.inl h
  · simp only [List.mem_append, List.mem_singleton] at h
    exact h

theorem writeDocFile_fs (dry_run prevPresent : Bool) (docId filename : String)
    (st : RunSt) (f : String) (h : f ∈ st.fs) :
    f ∈ (writeDocFile dry_run prevPresent docId filename st).fs := by
  unfold writeDocFile
  split
  · exact h
  · exact mem_addFile st.fs filename f h


theorem docStep_lookup_ne (force dry_run : Bool) (ss : SyncState)
    (fns : String → Option String) (st : RunSt) (data : Doc) (k : String)
    (hk : k ≠ data.id) :
    lookupEntry (docStep force dry_run ss fns st data).new_state k =
      lookupEntry st.new_state k := by
  simp only [docStep]
  split
  · exact lookupEntry_setKey_ne _ _ _ _ hk
  · rw [lookupEntry_setKey_ne _ _ _ _ hk, writeDocFile_new_state, renameCleanup_new_state]

theorem docStep_skip (force dry_run : Bool) (ss : SyncState)
    (fns : String → Option String) (st : RunSt) (data : Doc) (e : StateEntry)
    (hf : force = false) (he : lookupEntry ss data.id = some e)
    (hv : e.updated_at = some data.updated_at) :
    docStep force dry_run ss fns st data =
      { st with new_state := setKey st.new_state data.id e, skipped := st.skipped + 1 } := by
  simp only [docStep, he, Option.getD_some]
  rw [if_pos ⟨hf, hv⟩]

theorem docStep_actions_sub (force dry_run : Bool) (ss : SyncState)
    (fns : String → Option String) (st : RunSt) (data : Doc) (a : Action)
    (h : a ∈ st.actions) :
    a ∈ (docStep force dry_run ss fns st data).actions := by
  simp only [docStep]
  split
  · exact h
  · exact writeDocFile_actions_sub _ _ _ _ _ _ (renameCleanup_actions_sub _ _ _ _ _ _ h)

theorem docStep_actions_shape (force dry_run : Bool) (ss : SyncState)
    (fns : String → Option String) (st : RunSt) (data : Doc) (a : Action)
    (h : a ∈ (docStep force dry_run ss fns st data).actions) :
    a ∈ st.actions ∨ (∃ fn, a = Action.write data.id fn) ∨
      (∃ e fn, lookupEntry ss data.id = some e ∧ e.filename = some fn ∧
        a = Action.delete data.id fn) := by
  simp only [docStep] at h
  split at h
  · exact Or.inl h
  · rcases writeDocFile_actions_shape _ _ _ _ _ _ h with h1 | h1
    · rcases renameCleanup_actions_shape _ _ _ _ _ _ h1 with h2 | ⟨old, hpf, ha⟩
      · exact Or.inl h2
      · rcases hl : lookupEntry ss data.id with _ | e
        · rw [hl] at hpf
          simp [emptyEntry] at hpf
        · rw [hl] at hpf
          simp only [Option.getD_some] at hpf
          exact Or.inr (Or.inr ⟨e, old, rfl, hpf, ha⟩)
    · exact Or.inr (Or.inl ⟨_, h1⟩)

theorem docStep_fs (force dry_run : Bool) (ss : SyncState)
    (fns : String → Option String) (st : RunSt) (data : Doc) (f : String)
    (h : f ∈ st.fs)
    (hno : ∀ e, lookupEntry ss data.id = some e → e.filename ≠ some f) :
    f ∈ (docStep force dry_run ss fns st data).fs := by
  simp only [docStep]
  split
  · exact h
  · apply writeDocFile_fs
    apply renameCleanup_fs _ _ _ _ _ _ h
    rcases hl : lookupEntry ss data.id with _ | e
    · simp [emptyEntry]
    · simp only [Option.getD_some]
      exact hno e hl


theorem docLoop_lookup_ne (force dry_run : Bool) (ss : SyncState)
    (fns : String → Option String) (docs : List Doc) (k : String)
    (hk : ∀ d ∈ docs, d.id ≠ k) :
    ∀ st : RunSt,
      lookupEntry (docs.foldl (docStep force dry_run ss fns) st).new_state k =
        lookupEntry st.new_state k := by
  induction docs with
  | nil => intro st; rfl
  | cons d rest ih =>
    intro st
    have h1 := ih (fun d' hd' => hk d' (List.mem_cons_of_mem d hd'))
      (docStep force dry_run ss fns st d)
    rw [List.foldl_cons, h1,
      docStep_lookup_ne _ _ _ _ _ _ _ (Ne.symm (hk d (List.mem_cons_self d rest)))]

theorem docLoop_actions_sub (force dry_run : Bool) (ss : SyncState)
    (fns : String → Option String) (docs : List Doc) (a : Action) :
    ∀ st : RunSt, a ∈ st.actions →
      a ∈ (docs.foldl (docStep force dry_run ss fns) st).actions := by
  induction docs with
  | nil => intro st h; exact h
  | cons d rest ih =>
    intro st h
    exact ih _ (docStep_actions_sub _ _ _ _ _ _ _ h)

theorem docLoop_actions_shape (force dry_run : Bool) (ss : SyncState)
    (fns : String → Option String) (docs : List Doc) (a : Action) :
    ∀ st : RunSt, a ∈ (docs.foldl (docStep force dry_run ss fns) st).actions →
      a ∈ st.actions ∨ (∃ d ∈ docs, ∃ fn, a = Action.write d.id fn) ∨
        (∃ d ∈ docs, ∃ e fn, lookupEntry ss d.id = some e ∧ e.filename = some fn ∧
          a = Action.delete d.id fn) := by
  induction docs with
  | nil => intro st h; exact Or.inl h
  | cons d rest ih =>
    intro st h
    rcases ih (docStep force dry_run ss fns st d) h with h1 | h1 | h1
    · rcases docStep_actions_shape _ _ _ _ _ _ _ h1 with h2 | h2 | h2
      · exact Or.inl h2
      · exact Or.inr (Or.inl ⟨d, List.mem_cons_self d rest, h2⟩)
      · exact Or.inr (Or.inr ⟨d, List.mem_cons_self d rest, h2⟩)
    · obtain ⟨d', hd', hfn⟩ := h1
      exact Or.inr (Or.inl ⟨d', List.mem_cons_of_mem d hd', hfn⟩)
    · obtain ⟨d', hd', he⟩ := h1
      exact Or.inr (Or.inr ⟨d', List.mem_cons_of_mem d hd', he⟩)

theorem docLoop_fs (force dry_run : Bool) (ss : SyncState)
    (fns : String → Option String) (docs : List Doc) (f : String)
    (hno : ∀ d ∈ docs, ∀ e, lookupEntry ss d.id = some e → e.filename ≠ some f) :
    ∀ st : RunSt, f ∈ st.fs →
      f ∈ (docs.foldl (docStep force dry_run ss fns) st).fs := by
  induction docs with
  | nil => intro st h; exact h
  | cons d rest ih =>
    intro st h
    exact ih (fun d' hd' => hno d' (List.mem_cons_of_mem d hd')) _
      (docStep_fs _ _ _ _ _ _ _ h (hno d (List.mem_cons_self d rest)))

theorem docLoop_lookup_skip (force dry_run : Bool) (ss : SyncState)
    (fns : String → Option String) (docs : List Doc) (d : Doc) (e : StateEntry)
    (hnd : (docs.map Doc.id).Nodup) (hd : d ∈ docs)
    (hf : force = false) (he : lookupEntry ss d.id = some e)
    (hv : e.updated_at = some d.updated_at) :
    ∀ st : RunSt,
      lookupEntry (docs.foldl (docStep force dry_run ss fns) st).new_state d.id =
        some e := by
  obtain ⟨l1, l2, rfl⟩ := List.append_of_mem hd
  intro st
  rw [List.foldl_append, List.foldl_cons]
  have hrest : ∀ d' ∈ l2, d'.id ≠ d.id := by
    intro d' hd' heq
    rw [List.map_append, List.nodup_append] at hnd
    have h2 := hnd.2.1
    rw [List.map_cons, List.nodup_cons] at h2
    exact h2.1 (heq ▸ List.mem_map_of_mem Doc.id hd')
  rw [docLoop_lookup_ne force dry_run ss fns l2 d.id hrest]
  rw [docStep_skip force dry_run ss fns _ d e hf he hv]
  exact lookupEntry_setKey_self _ _ _


theorem saveTranscriptFile_new_state (dry_run : Bool) (docId tf : String) (st : RunSt) :
    (saveTranscriptFile dry_run docId tf st).new_state = st.new_state := by
  unfold saveTranscriptFile
  split <;> rfl

theorem saveTranscriptFile_actions_sub (dry_run : Bool) (docId tf : String) (st : RunSt)
    (a : Action) (h : a ∈ st.actions) :
    a ∈ (saveTranscriptFile dry_run docId tf st).actions := by
  unfold saveTranscriptFile
  split
  · exact h
  · simp only [List.mem_append]
    exact Or.inl h

theorem saveTranscriptFile_actions_shape (dry_run : Bool) (docId tf : String) (st : RunSt)
    (a : Action) (h : a ∈ (saveTranscriptFile dry_run docId tf st).actions) :
    a ∈ st.actions ∨ a = Action.writeTranscript docId tf := by
  unfold saveTranscriptFile at h
  split at h
  · exact Or.inl h
  · simp only [List.mem_append, List.mem_singleton] at h
    exact h

theorem saveTranscriptFile_fs (dry_run : Bool) (docId tf : String) (st : RunSt)
    (f : String) (h : f ∈ st.fs) :
    f ∈ (saveTranscriptFile dry_run docId tf st).fs := by
  unfold saveTranscriptFile
  split
  · exact h
  · exact mem_addFile st.fs tf f h

theorem exportStep_lookup_ne (dry_run : Bool) (documents : List Doc) (ss : SyncState)
    (fns : String → Option String) (st : RunSt) (pair : String × List Utt) (k : String)
    (hk : ∀ d ∈ documents, d.id ≠ k) :
    lookupEntry (exportStep dry_run documents ss fns st pair).new_state k =
      lookupEntry st.new_state k := by
  simp only [exportStep]
  split
  · rfl
  · split
    · rfl
    · rename_i data hfind
      have hne : pair.1 ≠ k := by
        have hmem := List.mem_of_find?_eq_some hfind
        have hpred := List.find?_some hfind
        have : data.id = pair.1 := by simpa using hpred
        rw [← this]
        exact hk data hmem
      split
      · rfl
      · split <;>
        · rw [lookupEntry_setKey_ne _ _ _ _ (Ne.symm hne), saveTranscriptFile_new_state]

theorem exportStep_saved (dry_run : Bool) (documents : List Doc) (ss : SyncState)
    (fns : String → Option String) (st : RunSt) (pair : String × List Utt)
    (K : String) (e : StateEntry)
    (he : lookupEntry st.new_state K = some e) (hs : e.transcript_saved = true) :
    lookupEntry (exportStep dry_run documents ss fns st pair).new_state K = some e ∧
    (∀ fn, Action.writeTranscript K fn ∈ (exportStep dry_run documents ss fns st pair).actions →
      Action.writeTranscript K fn ∈ st.actions) := by
  by_cases hK : pair.1 = K
  · subst hK
    simp only [exportStep]
    split
    · exact ⟨he, fun fn h => h⟩
    · split
      · exact ⟨he, fun fn h => h⟩
      · rw [he, hs]
        rw [if_pos rfl]
        exact ⟨he, fun fn h => h⟩
  · simp only [exportStep]
    split
    · exact ⟨he, fun fn h => h⟩
    · split
      · exact ⟨he, fun fn h => h⟩
      · split
        · exact ⟨he, fun fn h => h⟩
        · have hstep : ∀ st2 : RunSt, lookupEntry st2.new_state K = some e →
              ∀ e2 : StateEntry,
              lookupEntry ({ st2 with new_state := setKey st2.new_state pair.1 e2 } : RunSt).new_state K = some e := by
            intro st2 h2 e2
            simpa [lookupEntry_setKey_ne _ _ _ _ (Ne.symm hK)] using h2
          constructor
          · split
            · exact hstep _ (by rw [saveTranscriptFile_new_state]; exact he) _
            · exact hstep _ (by rw [saveTranscriptFile_new_state]; exact he) _
          · intro fn hmem
            have hgen : ∀ tf : String, Action.writeTranscript K fn ∈
                (saveTranscriptFile dry_run pair.1 tf st).actions →
                Action.writeTranscript K fn ∈ st.actions := by
              intro tf hacts
              rcases saveTranscriptFile_actions_shape _ _ _ _ _ hacts with h | h
              · exact h
              · exfalso
                have hKp : K = pair.1 := by
                  have := congrArg (fun a => match a with
                    | Action.writeTranscript i _ => i
                    | _ => "") h
                  simpa using this
                exact hK hKp.symm
            split at hmem
            · exact hgen _ hmem
            · exact hgen _ hmem

theorem exportStep_no_delete (dry_run : Bool) (documents : List Doc) (ss : SyncState)
    (fns : String → Option String) (st : RunSt) (pair : String × List Utt)
    (i fn : String)
    (h : Action.delete i fn ∈ (exportStep dry_run documents ss fns st pair).actions) :
    Action.delete i fn ∈ st.actions := by
  simp only [exportStep] at h
  split at h
  · exact h
  · split at h
    · exact h
    · split at h
      · exact h
      · have hgen : ∀ tf : String, Action.delete i fn ∈
            (saveTranscriptFile dry_run pair.1 tf st).actions →
            Action.delete i fn ∈ st.actions := by
          intro tf hacts
          rcases saveTranscriptFile_actions_shape _ _ _ _ _ hacts with h2 | h2
          · exact h2
          · exact absurd h2 (by simp)
        split at h
        · exact hgen _ h
        · exact hgen _ h

theorem exportStep_actions_sub (dry_run : Bool) (documents : List Doc) (ss : SyncState)
    (fns : String → Option String) (st : RunSt) (pair : String × List Utt)
    (a : Action) (h : a ∈ st.actions) :
    a ∈ (exportStep dry_run documents ss fns st pair).actions := by
  simp only [exportStep]
  split
  · exact h
  · split
    · exact h
    · split
      · exact h
      · split <;> exact saveTranscriptFile_actions_sub _ _ _ _ _ h

theorem exportStep_fs (dry_run : Bool) (documents : List Doc) (ss : SyncState)
    (fns : String → Option String) (st : RunSt) (pair : String × List Utt)
    (f : String) (h : f ∈ st.fs) :
    f ∈ (exportStep dry_run documents ss fns st pair).fs := by
  simp only [exportStep]
  split
  · exact h
  · split
    · exact h
    · split
      · exact h
      · split <;> exact saveTranscriptFile_fs _ _ _ _ _ h


theorem exportLoop_lookup_ne (dry_run : Bool) (documents : List Doc) (ss : SyncState)
    (fns : String → Option String) (ts : List (String × List Utt)) (k : String)
    (hk : ∀ d ∈ documents, d.id ≠ k) :
    ∀ st : RunSt,
      lookupEntry (ts.foldl (exportStep dry_run documents ss fns) st).new_state k =
        lookupEntry st.new_state k := by
  induction ts with
  | nil => intro st; rfl
  | cons p rest ih =>
    intro st
    rw [List.foldl_cons, ih, exportStep_lookup_ne _ _ _ _ _ _ _ hk]

theorem exportLoop_saved (dry_run : Bool) (documents : List Doc) (ss : SyncState)
    (fns : String → Option String) (ts : List (String × List Utt))
    (K : String) (e : StateEntry) (hs : e.transcript_saved = true) :
    ∀ st : RunSt, lookupEntry st.new_state K = some e →
      lookupEntry (ts.foldl (exportStep dry_run documents ss fns) st).new_state K = some e ∧
      (∀ fn, Action.writeTranscript K fn ∈
          (ts.foldl (exportStep dry_run documents ss fns) st).actions →
        Action.writeTranscript K fn ∈ st.actions) := by
  induction ts with
  | nil => intro st he; exact ⟨he, fun fn h => h⟩
  | cons p rest ih =>
    intro st he
    obtain ⟨h1, h2⟩ := exportStep_saved dry_run documents ss fns st p K e he hs
    obtain ⟨h3, h4⟩ := ih (exportStep dry_run documents ss fns st p) h1
    exact ⟨h3, fun fn h => h2 fn (h4 fn h)⟩

theorem exportLoop_no_delete (dry_run : Bool) (documents : List Doc) (ss : SyncState)
    (fns : String → Option String) (ts : List (String × List Utt)) (i fn : String) :
    ∀ st : RunSt,
      Action.delete i fn ∈ (ts.foldl (exportStep dry_run documents ss fns) st).actions →
      Action.delete i fn ∈ st.actions := by
  induction ts with
  | nil => intro st h; exact h
  | cons p rest ih =>
    intro st h
    exact exportStep_no_delete _ _ _ _ _ _ _ _ (ih _ h)

theorem exportLoop_actions_sub (dry_run : Bool) (documents : List Doc) (ss : SyncState)
    (fns : String → Option String) (ts : List (String × List Utt)) (a : Action) :
    ∀ st : RunSt, a ∈ st.actions →
      a ∈ (ts.foldl (exportStep dry_run documents ss fns) st).actions := by
  induction ts with
  | nil => intro st h; exact h
  | cons p rest ih =>
    intro st h
    exact ih _ (exportStep_actions_sub _ _ _ _ _ _ _ h)

theorem exportLoop_fs (dry_run : Bool) (documents : List Doc) (ss : SyncState)
    (fns : String → Option String) (ts : List (String × List Utt)) (f : String) :
    ∀ st : RunSt, f ∈ st.fs →
      f ∈ (ts.foldl (exportStep dry_run documents ss fns) st).fs := by
  induction ts with
  | nil => intro st h; exact h
  | cons p rest ih =>
    intro st h
    exact ih _ (exportStep_fs _ _ _ _ _ _ _ h)

theorem removeOrphanFile_new_state (dry_run : Bool) (stateKey old : String) (st : RunSt) :
    (removeOrphanFile dry_run stateKey old st).new_state = st.new_state := by
  unfold removeOrphanFile
  split
  · split <;> rfl
  · rfl

theorem removeOrphanFile_actions_sub (dry_run : Bool) (stateKey old : String) (st : RunSt)
    (a : Action) (h : a ∈ st.actions) :
    a ∈ (removeOrphanFile dry_run stateKey old st).actions := by
  unfold removeOrphanFile
  split
  · split
    · exact h
    · simp only [List.mem_append]
      exact Or.inl h
  · exact h

theorem removeOrphanFile_actions_shape (dry_run : Bool) (stateKey old : String) (st : RunSt)
    (a : Action) (h : a ∈ (removeOrphanFile dry_run stateKey old st).actions) :
    a ∈ st.actions ∨ a = Action.delete stateKey old := by
  unfold removeOrphanFile at h
  split at h
  · split at h
    · exact Or.inl h
    · simp only [List.mem_append, List.mem_singleton] at h
      exact h
  · exact Or.inl h

theorem removeOrphanFile_fs (dry_run : Bool) (stateKey old : String) (st : RunSt)
    (f : String) (h : f ∈ st.fs) (hne : old ≠ f) :
    f ∈ (removeOrphanFile dry_run stateKey old st).fs := by
  unfold removeOrphanFile
  split
  · split
    · exact h
    · exact mem_removeFile st.fs old f h (Ne.symm hne)
  · exact h

theorem removeOrphanFile_emits (dry_run : Bool) (stateKey old : String) (st : RunSt)
    (h : pathExists st.fs old) (hdr : dry_run = false) :
    Action.delete stateKey old ∈ (removeOrphanFile dry_run stateKey old st).actions := by
  unfold removeOrphanFile
  rw [if_pos h, hdr]
  simp

theorem orphanStep_lookup_ne (dry_run : Bool) (documents : List Doc) (st : RunSt)
    (pair : String × StateEntry) (k : String) (hk : pair.1 ≠ k) :
    lookupEntry (orphanStep dry_run documents st pair).new_state k =
      lookupEntry st.new_state k := by
  simp only [orphanStep]
  split
  · rfl
  · split
    · rw [lookupEntry_setKey_ne _ _ _ _ (Ne.symm hk), removeOrphanFile_new_state]
    · rw [removeOrphanFile_new_state]

theorem orphanStep_actions_sub (dry_run : Bool) (documents : List Doc) (st : RunSt)
    (pair : String × StateEntry) (a : Action) (h : a ∈ st.actions) :
    a ∈ (orphanStep dry_run documents st pair).actions := by
  simp only [orphanStep]
  split
  · exact h
  · split <;> exact removeOrphanFile_actions_sub _ _ _ _ _ h

theorem orphanStep_delete_shape (dry_run : Bool) (documents : List Doc) (st : RunSt)
    (pair : String × StateEntry) (a : Action)
    (h : a ∈ (orphanStep dry_run documents st pair).actions) :
    a ∈ st.actions ∨ a = Action.delete pair.1 (pair.2.filename.getD "") := by
  simp only [orphanStep] at h
  split at h
  · exact Or.inl h
  · split at h
    · exact removeOrphanFile_actions_shape _ _ _ _ _ h
    · exact removeOrphanFile_actions_shape _ _ _ _ _ h

theorem orphanStep_fs (dry_run : Bool) (documents : List Doc) (st : RunSt)
    (pair : String × StateEntry) (f : String) (h : f ∈ st.fs)
    (hne : pair.2.filename.getD "" ≠ f) :
    f ∈ (orphanStep dry_run documents st pair).fs := by
  simp only [orphanStep]
  split
  · exact h
  · split
    · exact removeOrphanFile_fs _ _ _ _ _ h hne
    · exact removeOrphanFile_fs _ _ _ _ _ h hne

theorem orphanStep_self (dry_run : Bool) (documents : List Doc) (st : RunSt)
    (k : String) (e : StateEntry)
    (habsent : ∀ d ∈ documents, d.id ≠ k) :
    ((pathExists st.fs (e.filename.getD "") → dry_run = false →
        Action.delete k (e.filename.getD "") ∈
          (orphanStep dry_run documents st (k, e)).actions)) ∧
    (e.transcript_saved = true →
      lookupEntry (orphanStep dry_run documents st (k, e)).new_state k =
        some ⟨none, none, true, e.transcript_filename⟩) ∧
    (e.transcript_saved = false →
      lookupEntry (orphanStep dry_run documents st (k, e)).new_state k =
        lookupEntry st.new_state k) := by
  have hfind : documents.find? (fun d => d.id == k) = none := by
    rw [List.find?_eq_none]
    intro d hd
    simpa using habsent d hd
  simp only [orphanStep, hfind]
  simp only [Option.isSome_none, Bool.false_eq_true, if_false]
  refine ⟨?_, ?_, ?_⟩
  · intro hpe hdr
    split
    · exact removeOrphanFile_emits _ _ _ _ hpe hdr
    · exact removeOrphanFile_emits _ _ _ _ hpe hdr
  · intro hts
    rw [if_pos hts]
    exact lookupEntry_setKey_self _ _ _
  · intro hts
    rw [hts]
    simp only [Bool.false_eq_true, if_false]
    rw [removeOrphanFile_new_state]


theorem orphanLoop_lookup_ne (dry_run : Bool) (documents : List Doc)
    (entries : SyncState) (k : String) (hk : ∀ p ∈ entries, p.1 ≠ k) :
    ∀ st : RunSt,
      lookupEntry (entries.foldl (orphanStep dry_run documents) st).new_state k =
        lookupEntry st.new_state k := by
  induction entries with
  | nil => intro st; rfl
  | cons p rest ih =>
    intro st
    rw [List.foldl_cons, ih (fun p' hp' => hk p' (List.mem_cons_of_mem p hp')),
      orphanStep_lookup_ne _ _ _ _ _ (hk p (List.mem_cons_self p rest))]

theorem orphanLoop_actions_sub (dry_run : Bool) (documents : List Doc)
    (entries : SyncState) (a : Action) :
    ∀ st : RunSt, a ∈ st.actions →
      a ∈ (entries.foldl (orphanStep dry_run documents) st).actions := by
  induction entries with
  | nil => intro st h; exact h
  | cons p rest ih =>
    intro st h
    exact ih _ (orphanStep_actions_sub _ _ _ _ _ h)

theorem orphanLoop_delete_shape (dry_run : Bool) (documents : List Doc)
    (entries : SyncState) (a : Action) :
    ∀ st : RunSt, a ∈ (entries.foldl (orphanStep dry_run documents) st).actions →
      a ∈ st.actions ∨ ∃ p ∈ entries, a = Action.delete p.1 (p.2.filename.getD "") := by
  induction entries with
  | nil => intro st h; exact Or.inl h
  | cons p rest ih =>
    intro st h
    rcases ih _ h with h1 | ⟨p', hp', ha⟩
    · rcases orphanStep_delete_shape _ _ _ _ _ h1 with h2 | h2
      · exact Or.inl h2
      · exact Or.inr ⟨p, List.mem_cons_self p rest, h2⟩
    · exact Or.inr ⟨p', List.mem_cons_of_mem p hp', ha⟩

theorem orphanLoop_fs (dry_run : Bool) (documents : List Doc)
    (entries : SyncState) (f : String)
    (hno : ∀ p ∈ entries, p.2.filename.getD "" ≠ f) :
    ∀ st : RunSt, f ∈ st.fs →
      f ∈ (entries.foldl (orphanStep dry_run documents) st).fs := by
  induction entries with
  | nil => intro st h; exact h
  | cons p rest ih =>
    intro st h
    exact ih (fun p' hp' => hno p' (List.mem_cons_of_mem p hp')) _
      (orphanStep_fs _ _ _ _ _ h (hno p (List.mem_cons_self p rest)))

theorem orphanLoop_self (dry_run : Bool) (documents : List Doc)
    (entries : SyncState) (k : String) (e : StateEntry)
    (hnd : (entries.map Prod.fst).Nodup) (hmem : (k, e) ∈ entries)
    (habsent : ∀ d ∈ documents, d.id ≠ k) :
    ∀ st : RunSt,
    (e.transcript_saved = true →
      lookupEntry (entries.foldl (orphanStep dry_run documents) st).new_state k =
        some ⟨none, none, true, e.transcript_filename⟩) ∧
    (e.transcript_saved = false →
      lookupEntry (entries.foldl (orphanStep dry_run documents) st).new_state k =
        lookupEntry st.new_state k) ∧
    (∀ f, e.filename = some f → f ≠ "" →
      (∀ p ∈ entries, p.1 ≠ k → p.2.filename.getD "" ≠ f) → dry_run = false →
      f ∈ st.fs →
      Action.delete k f ∈ (entries.foldl (orphanStep dry_run documents) st).actions) := by
  obtain ⟨l1, l2, rfl⟩ := List.append_of_mem hmem
  have hnd' := hnd
  rw [List.map_append, List.nodup_append] at hnd'
  have hk1 : ∀ p ∈ l1, p.1 ≠ k := by
    intro p hp he
    exact hnd'.2.2 (List.mem_map_of_mem Prod.fst hp)
      (by rw [he]; simp)
  have hk2 : ∀ p ∈ l2, p.1 ≠ k := by
    intro p hp he
    have hcons := hnd'.2.1
    rw [List.map_cons, List.nodup_cons] at hcons
    have hmm : p.1 ∈ List.map Prod.fst l2 := List.mem_map_of_mem Prod.fst hp
    rw [he] at hmm
    exact hcons.1 hmm
  intro st
  rw [List.foldl_append, List.foldl_cons]
  obtain ⟨hselfD, hselfT, hselfF⟩ :=
    orphanStep_self dry_run documents (l1.foldl (orphanStep dry_run documents) st) k e habsent
  refine ⟨?_, ?_, ?_⟩
  · intro hts
    rw [orphanLoop_lookup_ne _ _ _ _ hk2]
    exact hselfT hts
  · intro hts
    rw [orphanLoop_lookup_ne _ _ _ _ hk2, hselfF hts,
      orphanLoop_lookup_ne _ _ _ _ hk1]
  · intro f hf hfne hno hdr hfs
    have hfs1 : f ∈ (l1.foldl (orphanStep dry_run documents) st).fs := by
      refine orphanLoop_fs _ _ _ _ ?_ _ hfs
      intro p hp
      exact hno p (List.mem_append.2 (Or.inl hp)) (hk1 p hp)
    have hpe : pathExists (l1.foldl (orphanStep dry_run documents) st).fs (e.filename.getD "") := by
      rw [hf]
      exact Or.inr hfs1
    have hdel : Action.delete k (e.filename.getD "") ∈
        (orphanStep dry_run documents (l1.foldl (orphanStep dry_run documents) st) (k, e)).actions := by
      obtain ⟨ha, _, _⟩ :=
        orphanStep_self dry_run documents (l1.foldl (orphanStep dry_run documents) st) k e habsent
      exact ha hpe hdr
    rw [hf] at hdel
    simp only [Option.getD_some] at hdel
    exact orphanLoop_actions_sub _ _ _ _ _ hdel

/-- C2 (amended): a record whose version token is unchanged takes the
skip path, so its prior state entry (with `transcriptSaved = true`) is
copied forward and no transcript write action is emitted for it in a
non-force run. -/
theorem C2_transcript_once_unchanged (docs : List Doc) (ts : List (String × List Utt))
    (st0 : SyncState) (fs0 : List String) (dr : Bool) (d : Doc) (e : StateEntry)
    (hnd : (docs.map Doc.id).Nodup) (hd : d ∈ docs)
    (he : lookupEntry st0 d.id = some e)
    (hv : e.updated_at = some d.updated_at)
    (hs : e.transcript_saved = true) :
    ∀ fn, Action.writeTranscript d.id fn ∉ (sync false dr docs ts st0 fs0).actions := by
  intro fn hmem
  simp only [sync, Bool.false_eq_true, if_false] at hmem
  set stA : RunSt := ⟨0, 0, 0, 0, 0, [], fs0, []⟩ with hstA
  set st1 := docs.foldl (docStep false dr st0 (assign docs)) stA with hst1
  set st2 := ts.foldl (exportStep dr docs st0 (assign docs)) st1 with hst2
  have hlook1 : lookupEntry st1.new_state d.id = some e :=
    docLoop_lookup_skip false dr st0 (assign docs) docs d e hnd hd rfl he hv stA
  obtain ⟨hlook2, hact2⟩ :=
    exportLoop_saved dr docs st0 (assign docs) ts d.id e hs st1 hlook1
  rcases orphanLoop_delete_shape dr docs st0 _ st2 hmem with h1 | ⟨p, hp, hpa⟩
  · have h2 := hact2 fn h1
    rcases docLoop_actions_shape false dr st0 (assign docs) docs _ stA h2 with h3 | h3 | h3
    · simp [hstA] at h3
    · obtain ⟨d', _, fn', hw⟩ := h3
      exact absurd hw (by simp)
    · obtain ⟨d', _, e', fn', _, _, hw⟩ := h3
      exact absurd hw (by simp)
  · exact absurd hpa (by simp)

/-- C7: for an id present in the prior state but absent from the current
collection in a plain run, the recorded notes file (present on disk) is
deleted; when `transcriptSaved` was set, a tombstone entry
`{transcriptSaved, transcriptFilename}` is retained, otherwise the id is
dropped; and no delete action ever targets the recorded transcript
filename (which differs from every recorded notes filename). -/
theorem C7_orphan_cleanup (docs : List Doc) (ts : List (String × List Utt))
    (st0 : SyncState) (fs0 : List String) (k : String) (e : StateEntry) (f : String)
    (hnd : (st0.map Prod.fst).Nodup)
    (hmem : (k, e) ∈ st0)
    (habsent : ∀ d ∈ docs, d.id ≠ k)
    (hfile : e.filename = some f) (hfne : f ≠ "") (hfs : f ∈ fs0)
    (hother : ∀ p ∈ st0, p.1 ≠ k → p.2.filename ≠ some f) :
    (Action.delete k f ∈ (sync false false docs ts st0 fs0).actions) ∧
    (e.transcript_saved = true →
      lookupEntry (sync false false docs ts st0 fs0).new_state k =
        some ⟨none, none, true, e.transcript_filename⟩) ∧
    (e.transcript_saved = false →
      lookupEntry (sync false false docs ts st0 fs0).new_state k = none) ∧
    (∀ tfs, e.transcript_filename = some tfs →
      (∀ p ∈ st0, p.2.filename.getD "" ≠ tfs) →
      ∀ i, Action.delete i tfs ∉ (sync false false docs ts st0 fs0).actions) := by
  simp only [sync, Bool.false_eq_true, if_false]
  set stA : RunSt := ⟨0, 0, 0, 0, 0, [], fs0, []⟩ with hstA
  set st1 := docs.foldl (docStep false false st0 (assign docs)) stA with hst1
  set st2 := ts.foldl (exportStep false docs st0 (assign docs)) st1 with hst2
  have hdocno : ∀ d ∈ docs, ∀ e', lookupEntry st0 d.id = some e' →
      e'.filename ≠ some f := by
    intro d hd e' hl
    exact hother (d.id, e') (lookupEntry_mem st0 d.id e' hl) (habsent d hd)
  have hfs1 : f ∈ st1.fs := docLoop_fs false false st0 (assign docs) docs f hdocno stA hfs
  have hfs2 : f ∈ st2.fs := exportLoop_fs false docs st0 (assign docs) ts f st1 hfs1
  have hlookA : lookupEntry st1.new_state k = lookupEntry stA.new_state k :=
    docLoop_lookup_ne false false st0 (assign docs) docs k habsent stA
  have hlook1 : lookupEntry st1.new_state k = none := by
    rw [hlookA, hstA]
    rfl
  have hlook2 : lookupEntry st2.new_state k = none := by
    rw [hst2, exportLoop_lookup_ne false docs st0 (assign docs) ts k habsent st1]
    exact hlook1
  have hgetDno : ∀ p ∈ st0, p.1 ≠ k → p.2.filename.getD "" ≠ f := by
    intro p hp hpk hcontra
    rcases hpf : p.2.filename with _ | o
    · rw [hpf] at hcontra
      exact hfne (by simpa using hcontra.symm)
    · rw [hpf] at hcontra
      simp only [Option.getD_some] at hcontra
      exact hother p hp hpk (by rw [hpf, hcontra])
  obtain ⟨hT, hF, hD⟩ :=
    orphanLoop_self false docs st0 k e hnd hmem habsent st2
  refine ⟨?_, ?_, ?_, ?_⟩
  · exact hD f hfile hfne hgetDno rfl hfs2
  · exact hT
  · intro hts
    rw [hF hts]
    exact hlook2
  · intro tfs htfs hnot i hdel
    rcases orphanLoop_delete_shape false docs st0 _ st2 hdel with h1 | ⟨p, hp, hpa⟩
    · have h2 := exportLoop_no_delete false docs st0 (assign docs) ts i tfs st1 h1
      rcases docLoop_actions_shape false false st0 (assign docs) docs _ stA h2 with h3 | h3 | h3
      · simp [hstA] at h3
      · obtain ⟨d', _, fn', hw⟩ := h3
        exact absurd hw (by simp)
      · obtain ⟨d', hd', e', fn', hl', hf', hw⟩ := h3
        have hfn' : fn' = tfs := by
          have := congrArg (fun a => match a with
            | Action.delete _ x => x
            | _ => "") hw
          simpa using this.symm
        have hpmem := lookupEntry_mem st0 d'.id e' hl'
        have := hnot (d'.id, e') hpmem
        rw [hf', hfn'] at this
        simp at this
    · have htfs' : tfs = p.2.filename.getD "" := by
        have := congrArg (fun a => match a with
          | Action.delete _ x => x
          | _ => "") hpa
        simpa using this
      exact hnot p hp (by rw [← htfs'])

/-- C1 counterexample: with `force` set, prior state is not consulted at
all (src/sync.py line 375): for a record whose prior entry has
`transcriptSaved = true` and a prior filename differing from the newly
assigned one, the force run emits a transcript write and no delete of
the old filename — the run's actions are exactly the document write and
the transcript write. -/
theorem C1_counterexample :
    lookupEntry [("a", (⟨some "v0", some "old.md", true, some "tr.md"⟩ : StateEntry))] "a" =
      some ⟨some "v0", some "old.md", true, some "tr.md"⟩ ∧
    (sync true false [⟨"a", "t", "2026-01-01", "v1"⟩]
        [("a", [⟨"microphone", "hi", ""⟩])]
        [("a", ⟨some "v0", some "old.md", true, some "tr.md"⟩)] ["old.md"]).actions =
      [Action.write "a" "2026-01-01_t.md",
       Action.writeTranscript "a" "2026-01-01_t_transcript.md"] := by
  decide

/-- C1 (amended): when `force` is set the prior state is ignored
entirely — the run's outcome does not depend on it, so no rename-cleanup
delete is ever derived from a prior filename and transcripts are
re-captured even for ids with `transcriptSaved = true` in prior state. -/
theorem C1_force_ignores_prior_state (dr : Bool) (docs : List Doc)
    (ts : List (String × List Utt)) (st0 : SyncState) (fs0 : List String) :
    sync true dr docs ts st0 fs0 = sync true dr docs ts [] fs0 := rfl

/-- C2 counterexample: a record whose version token changed gets a fresh
state entry without `transcript_saved` (src/sync.py lines 453-456), so
its transcript is written again even though the prior entry had
`transcriptSaved = true`. -/
theorem C2_counterexample :
    lookupEntry [("a", (⟨some "v0", some "2026-01-01_t.md", true,
        some "2026-01-01_t_transcript.md"⟩ : StateEntry))] "a" =
      some ⟨some "v0", some "2026-01-01_t.md", true, some "2026-01-01_t_transcript.md"⟩ ∧
    (⟨some "v0", some "2026-01-01_t.md", true,
        some "2026-01-01_t_transcript.md"⟩ : StateEntry).transcript_saved = true ∧
    Action.writeTranscript "a" "2026-01-01_t_transcript.md" ∈
      (sync false false [⟨"a", "t", "2026-01-01", "v2"⟩]
        [("a", [⟨"microphone", "hi", ""⟩])]
        [("a", ⟨some "v0", some "2026-01-01_t.md", true,
          some "2026-01-01_t_transcript.md"⟩)] ["2026-01-01_t.md"]).actions := by
  decide

/-- C2 witness: a concrete unchanged record with a previously captured
transcript, supplied with fresh utterances, produces no transcript
write. -/
theorem C2_witness :
    Action.writeTranscript "a" "2026-01-01_t_transcript.md" ∉
      (sync false false [⟨"a", "t", "2026-01-01", "v1"⟩]
        [("a", [⟨"microphone", "hi", ""⟩])]
        [("a", ⟨some "v1", some "2026-01-01_t.md", true,
          some "2026-01-01_t_transcript.md"⟩)] []).actions :=
  C2_transcript_once_unchanged [⟨"a", "t", "2026-01-01", "v1"⟩]
    [("a", [⟨"microphone", "hi", ""⟩])]
    [("a", ⟨some "v1", some "2026-01-01_t.md", true, some "2026-01-01_t_transcript.md"⟩)]
    [] false ⟨"a", "t", "2026-01-01", "v1"⟩
    ⟨some "v1", some "2026-01-01_t.md", true, some "2026-01-01_t_transcript.md"⟩
    (by decide) (by decide) (by decide) (by decide) (by decide)
    "2026-01-01_t_transcript.md"

/-- C3: collision resolution is symmetric — every record whose
unsuffixed name is shared by two or more records receives the
id-suffixed name (including the first occurrence in iteration order);
a record whose unsuffixed name is unique keeps it. -/
theorem C3_collision_symmetric (docs : List Doc) (hnd : (docs.map Doc.id).Nodup) :
    ∀ d ∈ docs,
      (2 ≤ countBase docs (plainName d) → assign docs d.id = some (suffixedName d)) ∧
      (countBase docs (plainName d) = 1 → assign docs d.id = some (plainName d)) := by
  intro d hd
  have h := assign_spec docs hnd d hd
  constructor
  · intro h2
    rw [h, targetName, if_pos (by omega)]
  · intro h1
    rw [h, targetName, if_neg (by omega)]

/-- C3 witness: two colliding records both get suffixed names, a third
non-colliding record keeps its unsuffixed name. -/
theorem C3_witness :
    2 ≤ countBase [⟨"id111111x", "a", "2026-01-01", "v"⟩, ⟨"id222222x", "a", "2026-01-01", "v"⟩,
        ⟨"id333333x", "b", "2026-01-01", "v"⟩] (plainName ⟨"id111111x", "a", "2026-01-01", "v"⟩) ∧
    countBase [⟨"id111111x", "a", "2026-01-01", "v"⟩, ⟨"id222222x", "a", "2026-01-01", "v"⟩,
        ⟨"id333333x", "b", "2026-01-01", "v"⟩] (plainName ⟨"id333333x", "b", "2026-01-01", "v"⟩) = 1 ∧
    assign [⟨"id111111x", "a", "2026-01-01", "v"⟩, ⟨"id222222x", "a", "2026-01-01", "v"⟩,
        ⟨"id333333x", "b", "2026-01-01", "v"⟩] "id111111x" =
      some (suffixedName ⟨"id111111x", "a", "2026-01-01", "v"⟩) ∧
    assign [⟨"id111111x", "a", "2026-01-01", "v"⟩, ⟨"id222222x", "a", "2026-01-01", "v"⟩,
        ⟨"id333333x", "b", "2026-01-01", "v"⟩] "id333333x" =
      some (plainName ⟨"id333333x", "b", "2026-01-01", "v"⟩) := by
  refine ⟨by decide, by decide, ?_, ?_⟩
  · exact (C3_collision_symmetric _ (by decide) ⟨"id111111x", "a", "2026-01-01", "v"⟩
      (by decide)).1 (by decide)
  · exact (C3_collision_symmetric _ (by decide) ⟨"id333333x", "b", "2026-01-01", "v"⟩
      (by decide)).2 (by decide)

/-- C4 counterexample: two records with pairwise-distinct ids sharing
their first 8 characters and computing the same base name both receive
the same suffixed filename, so the assignment is not injective. -/
theorem C4_counterexample :
    (([⟨"aaaaaaaa1", "t", "2026-01-01", "v"⟩,
       ⟨"aaaaaaaa2", "t", "2026-01-01", "v"⟩] : List Doc).map Doc.id).Nodup ∧
    ¬ (∀ d1 ∈ ([⟨"aaaaaaaa1", "t", "2026-01-01", "v"⟩,
          ⟨"aaaaaaaa2", "t", "2026-01-01", "v"⟩] : List Doc),
        ∀ d2 ∈ ([⟨"aaaaaaaa1", "t", "2026-01-01", "v"⟩,
          ⟨"aaaaaaaa2", "t", "2026-01-01", "v"⟩] : List Doc),
        assign [⟨"aaaaaaaa1", "t", "2026-01-01", "v"⟩,
          ⟨"aaaaaaaa2", "t", "2026-01-01", "v"⟩] d1.id =
          assign [⟨"aaaaaaaa1", "t", "2026-01-01", "v"⟩,
            ⟨"aaaaaaaa2", "t", "2026-01-01", "v"⟩] d2.id → d1.id = d2.id) := by
  decide

/-- C4 witness: the amended injectivity theorem applied at a concrete
collection satisfying its hypotheses. -/
theorem C4_witness :
    (([⟨"aaaaaaaa1", "t", "2026-01-01", "v"⟩,
       ⟨"bbbbbbbb2", "t", "2026-01-01", "v"⟩] : List Doc).map
        (fun d => d.id.take 8)).Nodup ∧
    (∀ d ∈ ([⟨"aaaaaaaa1", "t", "2026-01-01", "v"⟩,
        ⟨"bbbbbbbb2", "t", "2026-01-01", "v"⟩] : List Doc),
      d.date.length = 10 ∧ '_' ∉ d.date.data) ∧
    (⟨"aaaaaaaa1", "t", "2026-01-01", "v"⟩ : Doc).id =
      (⟨"aaaaaaaa1", "t", "2026-01-01", "v"⟩ : Doc).id := by
  refine ⟨by decide, by decide, ?_⟩
  exact C4_assign_injective_amended
    [⟨"aaaaaaaa1", "t", "2026-01-01", "v"⟩, ⟨"bbbbbbbb2", "t", "2026-01-01", "v"⟩]
    (by decide) (by decide) ⟨"aaaaaaaa1", "t", "2026-01-01", "v"⟩ (by decide)
    ⟨"aaaaaaaa1", "t", "2026-01-01", "v"⟩ (by decide) rfl

/-- C5 (code bug): after a run that turned a prior orphan-with-transcript
into a tombstone, a second run over the unchanged (empty) collection is
not action-free: the tombstone has no recorded filename, the recorded
name defaults to the empty string whose joined path is the existing
output directory, so the second run counts it removed and emits a
delete for it (in the real program, `os.remove` on the output directory
raises).  The second run's output state does equal its input state. -/
theorem C5_second_run_emits_delete :
    (sync false false [] [] [("x", ⟨some "v", some "f.md", true, some "t.md"⟩)]
        ["f.md"]).persisted =
      some (sync false false [] [] [("x", ⟨some "v", some "f.md", true, some "t.md"⟩)]
        ["f.md"]).new_state ∧
    (sync false false [] []
        (sync false false [] [] [("x", ⟨some "v", some "f.md", true, some "t.md"⟩)]
          ["f.md"]).new_state
        (sync false false [] [] [("x", ⟨some "v", some "f.md", true, some "t.md"⟩)]
          ["f.md"]).fs).actions = [Action.delete "x" ""] ∧
    (sync false false [] []
        (sync false false [] [] [("x", ⟨some "v", some "f.md", true, some "t.md"⟩)]
          ["f.md"]).new_state
        (sync false false [] [] [("x", ⟨some "v", some "f.md", true, some "t.md"⟩)]
          ["f.md"]).fs).new_state =
      (sync false false [] [] [("x", ⟨some "v", some "f.md", true, some "t.md"⟩)]
        ["f.md"]).new_state := by
  decide

/-- C6 (code bug): in dry-run mode the filesystem and the persisted
state are untouched, but the summary counters do not match the real
run's: a new document is reported as `1 created` by the real run while
the dry run reports `0 created` (the counters are only incremented in
the non-dry branch, src/sync.py lines 440-451). -/
theorem C6_dry_run_counters_diverge :
    (sync false true [⟨"a", "t", "2026-01-01", "v1"⟩] [] [] []).actions = [] ∧
    (sync false true [⟨"a", "t", "2026-01-01", "v1"⟩] [] [] []).persisted = none ∧
    (sync false true [⟨"a", "t", "2026-01-01", "v1"⟩] [] [] []).fs = [] ∧
    (sync false true [⟨"a", "t", "2026-01-01", "v1"⟩] [] [] []).created = 0 ∧
    (sync false true [⟨"a", "t", "2026-01-01", "v1"⟩] [] [] []).updated = 0 ∧
    (sync false false [⟨"a", "t", "2026-01-01", "v1"⟩] [] [] []).created = 1 := by
  decide

/-- C7 witness: a concrete orphaned id with a captured transcript — its
notes file is deleted, a tombstone is retained, and no delete targets
its transcript file. -/
theorem C7_witness :
    Action.delete "x" "f.md" ∈
      (sync false false [] [] [("x", ⟨some "v", some "f.md", true, some "t.md"⟩)]
        ["f.md"]).actions ∧
    lookupEntry (sync false false [] []
        [("x", ⟨some "v", some "f.md", true, some "t.md"⟩)] ["f.md"]).new_state "x" =
      some ⟨none, none, true, some "t.md"⟩ ∧
    (∀ i, Action.delete i "t.md" ∉
      (sync false false [] [] [("x", ⟨some "v", some "f.md", true, some "t.md"⟩)]
        ["f.md"]).actions) := by
  have h := C7_orphan_cleanup [] [] [("x", ⟨some "v", some "f.md", true, some "t.md"⟩)]
    ["f.md"] "x" ⟨some "v", some "f.md", true, some "t.md"⟩ "f.md"
    (by decide) (by decide) (by decide) (by decide) (by decide) (by decide) (by decide)
  exact ⟨h.1, h.2.1 rfl, fun i => h.2.2.2 "t.md" rfl (by decide) i⟩

/-- C8 counterexample: a raw document whose title field is present but
equal to the empty string extracts an empty title, not the default
(`dict.get` only substitutes the default for an absent key). -/
theorem C8_counterexample :
    ¬ (extract_title ⟨some ""⟩ = "Untitled Meeting") := by
  decide

/-- C8 (amended): an absent title field defaults to "Untitled Meeting";
an empty-string title is kept as the empty string. -/
theorem C8_title_default_amended :
    extract_title ⟨none⟩ = "Untitled Meeting" ∧ extract_title ⟨some ""⟩ = "" := by
  decide

/-- C9: text-run marks are applied in source order, each successive mark
wrapping the accumulated result: marks `[bold, link(href = x)]` render
the text `t` as `[**t**](x)`, and the reversed order renders
`**[t](x)**`. -/
theorem C9_mark_order (t x : String) :
    tiptap_to_markdown (Node.mk "text" t [⟨"bold", ""⟩, ⟨"link", x⟩] 1 "" []) 0 none =
      "[" ++ ("**" ++ t ++ "**") ++ "](" ++ x ++ ")" ∧
    tiptap_to_markdown (Node.mk "text" t [⟨"link", x⟩, ⟨"bold", ""⟩] 1 "" []) 0 none =
      "**" ++ ("[" ++ t ++ "](" ++ x ++ ")") ++ "**" := by
  constructor <;> rfl

/-- C10: transcript formatting ignores an utterance whose text is empty
or whitespace-only after trimming — the loop state (lines and
current-speaker tracking) is unchanged by it, so the rendered transcript
equals the one for the sequence with that utterance removed. -/
theorem C10_blank_utterance_skipped (parseTime : String → Option String)
    (us1 us2 : List Utt) (u : Utt) (hu : pyStrip u.text = "") :
    (∀ st : TrSt, utteranceStep parseTime st u = st) ∧
    format_transcript parseTime (us1 ++ u :: us2) =
      format_transcript parseTime (us1 ++ us2) := by
  have hstep : ∀ st : TrSt, utteranceStep parseTime st u = st := by
    intro st
    unfold utteranceStep
    rw [hu]
    simp
  refine ⟨hstep, ?_⟩
  unfold format_transcript
  have hfold : (us1 ++ u :: us2).foldl (utteranceStep parseTime) ⟨[], none⟩ =
      (us1 ++ us2).foldl (utteranceStep parseTime) ⟨[], none⟩ := by
    rw [List.foldl_append, List.foldl_append, List.foldl_cons, hstep]
  rw [hfold]

/-- C10 witness: a whitespace-only utterance between two speakers
contributes nothing to the rendered transcript. -/
theorem C10_witness :
    pyStrip (Utt.mk "system" "   " "").text = "" ∧
    format_transcript (fun _ => none)
        [⟨"microphone", "hi", ""⟩, ⟨"system", "   ", ""⟩, ⟨"other", "yo", ""⟩] =
      format_transcript (fun _ => none)
        [⟨"microphone", "hi", ""⟩, ⟨"other", "yo", ""⟩] := by
  refine ⟨by decide, ?_⟩
  exact (C10_blank_utterance_skipped (fun _ => none) [⟨"microphone", "hi", ""⟩]
    [⟨"other", "yo", ""⟩] ⟨"system", "   ", ""⟩ (by decide)).2

end Granola
